import Mathlib

/-!
Verification development for the wt-pricing-algorithms library.

Shallow embedding conventions:
* Calendar dates are modelled as integers counting whole days; the dayjs
  operations used by the source (diff in days, add days, inclusive
  comparisons) become integer arithmetic.  All date values flowing through
  the library are day-granular, so this is exact.
* Monetary values (currency.js instances) are modelled as exact rationals,
  matching the specification treatment of the currency primitive as an
  external exact-decimal value type.
* JS objects with optional fields become structures with Option fields.
  JS truthiness tests on numeric fields (for example
  if mod.conditions.minLengthOfStay) are embedded explicitly: a present
  zero value behaves like an absent one, see natTruthy and intTruthy.
* The in-place mutation performed by selectBestGuestModifier (it writes a
  change property onto modifier objects that the caller owns) is embedded
  by explicit state passing: selectBestGuestModifierFull returns both the
  JS return value and the post-call contents of the modifiers list.
-/

namespace WT

/-- Valid values of the modifier type field; any other JS value (including a
missing field) is modelled as none. -/
inductive MType
  | percentage
  | absolute
deriving DecidableEq

/-- Modifier conditions object (hotel-data-swagger RatePlanPriceModifierConditions). -/
structure MConditions where
  fromD : Option Int := none
  toD : Option Int := none
  minLengthOfStay : Option Nat := none
  minOccupants : Option Nat := none
  maxAge : Option Int := none
deriving DecidableEq

/-- Rate plan price modifier.  The change field is absent on caller input and
is written by selectBestGuestModifier (in the source this is an in-place
object mutation). -/
structure Modifier where
  mtype : Option MType := none
  adjustment : ℚ := 0
  conditions : Option MConditions := none
  change : Option ℚ := none
deriving DecidableEq

/-- JS truthiness of an optional number: a present 0 is falsy, so it behaves
exactly like an absent value in conditions such as
if mod.conditions.minLengthOfStay. -/
def natTruthy : Option Nat → Option Nat
  | some 0 => none
  | o => o

/-- Raw value of conditions.minLengthOfStay as read by the source when
comparing against the tracked maximum (the tracked modifier always has the
field present and truthy). -/
def losValOf (m : Modifier) : Nat :=
  match m.conditions with
  | some c => c.minLengthOfStay.getD 0
  | none => 0

/-- Raw value of conditions.minOccupants, as losValOf. -/
def occValOf (m : Modifier) : Nat :=
  match m.conditions with
  | some c => c.minOccupants.getD 0
  | none => 0

/-- The two date-window guards of selectApplicableModifiers:
drop when conditions.from is given and lies strictly after the date, or when
conditions.to is given and lies strictly before the date (dayjs diff in whole
days on day-granular values is plain subtraction). -/
def dateCondFails (c : MConditions) (dateDayjs : Int) : Bool :=
  (match c.fromD with
   | some f => decide (0 < f - dateDayjs)
   | none => false) ||
  (match c.toD with
   | some t => decide (t - dateDayjs < 0)
   | none => false)

/-- Mutable state of the filter callback in selectApplicableModifiers:
the currently tracked minLengthOfStay and minOccupants maxima, the elements
scheduled for the second-pass drop, and the elements accepted so far.
Elements are tagged with their position in the input list, which models JS
object identity (elementsToDrop.indexOf is reference equality). -/
structure SAMState where
  maxMinLOS : Option (Nat × Modifier) := none
  maxMinOccupants : Option (Nat × Modifier) := none
  elementsToDrop : List Nat := []
  kept : List (Nat × Modifier) := []
deriving DecidableEq

/-- One step of the filter callback of selectApplicableModifiers, for the
element m at position i.  Returning st unchanged models the callback
returning false. -/
def samStep (dateDayjs : Int) (lengthOfStay numberOfGuests : Nat)
    (st : SAMState) (i : Nat) (m : Modifier) : SAMState :=
  match m.mtype with
  | none => st
  | some _ =>
    match m.conditions with
    | none => st
    | some c =>
      if dateCondFails c dateDayjs then st
      else
        match natTruthy c.minLengthOfStay with
        | some v =>
          if lengthOfStay < v then st
          else
            match st.maxMinLOS with
            | some pim =>
              if v < losValOf pim.2 then st
              else
                { st with
                  elementsToDrop := st.elementsToDrop ++ [pim.1]
                  maxMinLOS := some (i, m)
                  kept := st.kept ++ [(i, m)] }
            | none =>
              { st with maxMinLOS := some (i, m), kept := st.kept ++ [(i, m)] }
        | none =>
          match natTruthy c.minOccupants with
          | some v =>
            if numberOfGuests < v then st
            else
              match st.maxMinOccupants with
              | some pim =>
                if v < occValOf pim.2 then st
                else
                  { st with
                    elementsToDrop := st.elementsToDrop ++ [pim.1]
                    maxMinOccupants := some (i, m)
                    kept := st.kept ++ [(i, m)] }
              | none =>
                { st with maxMinOccupants := some (i, m), kept := st.kept ++ [(i, m)] }
          | none => { st with kept := st.kept ++ [(i, m)] }

/-- Runs the filter callback over the list, threading the state. -/
def samGo (dateDayjs : Int) (lengthOfStay numberOfGuests : Nat) :
    Nat → SAMState → List Modifier → SAMState
  | _, st, [] => st
  | i, st, m :: rest =>
    samGo dateDayjs lengthOfStay numberOfGuests (i + 1)
      (samStep dateDayjs lengthOfStay numberOfGuests st i m) rest

/-- selectApplicableModifiers from src/prices/rate-plans.js: a single filter
pass with stateful tracking of the largest applicable minLengthOfStay and
minOccupants modifiers, followed by a second pass dropping the superseded
ones.  An empty input yields [] exactly as the early return does. -/
def selectApplicableModifiers (modifiers : List Modifier) (dateDayjs : Int)
    (lengthOfStay numberOfGuests : Nat) : List Modifier :=
  let st := samGo dateDayjs lengthOfStay numberOfGuests 0 {} modifiers
  (st.kept.filter (fun im => ! st.elementsToDrop.contains im.1)).map Prod.snd

/-- conditions.maxAge of a modifier.  The source reads mod.conditions.maxAge
without guarding conditions in the age partition of selectBestGuestModifier
(a missing conditions object would throw there); every caller reaching it
has conditions present, and we model the missing case as an absent maxAge. -/
def condMaxAge (m : Modifier) : Option Int :=
  match m.conditions with
  | some c => c.maxAge
  | none => none

/-- The absolute price change of a modifier:
adjustment / 100 * basePrice for percentage modifiers, adjustment otherwise. -/
def computeChange (basePrice : ℚ) (m : Modifier) : ℚ :=
  match m.mtype with
  | some MType.percentage => m.adjustment / 100 * basePrice
  | _ => m.adjustment

/-- The reduce over the age-specific modifiers in selectBestGuestModifier.
A candidate replaces the current best only when it qualifies
(maxAge at least the guest age), its maxAge does not exceed the best one,
and its computed change does not exceed the best change.  Whenever a
candidate becomes best the source assigns current.change = change, an
in-place mutation recorded here in the log by input position. -/
def sbgmGo (basePrice : ℚ) (age : Int) :
    List (Nat × Modifier) → Option (Nat × Modifier) → List (Nat × ℚ) →
    Option (Nat × Modifier) × List (Nat × ℚ)
  | [], best, log => (best, log)
  | (i, cur) :: rest, best, log =>
    let curAge := (condMaxAge cur).getD 0
    let outer : Bool :=
      decide (age ≤ curAge) &&
      (match best with
       | none => true
       | some pb => decide (curAge ≤ (condMaxAge pb.2).getD 0))
    if outer then
      let change := computeChange basePrice cur
      let inner : Bool :=
        match best with
        | none => true
        | some pb => decide (change ≤ pb.2.change.getD 0)
      if inner then
        sbgmGo basePrice age rest (some (i, { cur with change := some change }))
          (log ++ [(i, change)])
      else sbgmGo basePrice age rest best log
    else sbgmGo basePrice age rest best log

/-- Age-specific modifiers are those whose conditions.maxAge is defined. -/
def isAgeMod (m : Modifier) : Bool :=
  (condMaxAge m).isSome

/-- Generic modifiers: conditions present and no maxAge. -/
def genericPred (m : Modifier) : Bool :=
  m.conditions.isSome && (condMaxAge m).isNone

/-- Replays the recorded change assignments onto the caller list, yielding
the post-call contents of the modifiers array (positions model identity). -/
def applyChangeLog (modifiers : List Modifier) (log : List (Nat × ℚ)) : List Modifier :=
  (List.enumFrom 0 modifiers).map (fun im =>
    match log.lookup im.1 with
    | some v => { im.2 with change := some v }
    | none => im.2)

/-- Ordering used for the generic-modifier sort
(comparator (a, b) => a.change <= b.change ? -1 : 1). -/
def changeLe (a b : Modifier) : Prop :=
  a.change.getD 0 ≤ b.change.getD 0

instance : DecidableRel changeLe := fun a b =>
  inferInstanceAs (Decidable (a.change.getD 0 ≤ b.change.getD 0))

instance : IsTotal Modifier changeLe :=
  ⟨fun a b => le_total (a.change.getD 0) (b.change.getD 0)⟩

instance : IsTrans Modifier changeLe :=
  ⟨fun _ _ _ h1 h2 => le_trans h1 h2⟩

/-- selectBestGuestModifier together with its side effect on the caller
modifier list.  First the age-specific reduce; if it selected nothing, every
generic modifier gets its change computed (an in-place write in the source)
and the cheapest change wins the ascending sort. -/
def selectBestGuestModifierFull (basePrice : ℚ) (modifiers : List Modifier)
    (age : Int) : Option Modifier × List Modifier :=
  let indexed := List.enumFrom 0 modifiers
  let ageModifiers := indexed.filter (fun im => isAgeMod im.2)
  let res := sbgmGo basePrice age ageModifiers none []
  match res.1 with
  | some pb => (some pb.2, applyChangeLog modifiers res.2)
  | none =>
    let genericIdx := indexed.filter (fun im => genericPred im.2)
    let glog := genericIdx.map (fun im => (im.1, computeChange basePrice im.2))
    let genericModifiers := genericIdx.map (fun im =>
      { im.2 with change := some (computeChange basePrice im.2) })
    ((List.insertionSort changeLe genericModifiers).head?, applyChangeLog modifiers glog)

/-- The JS return value of selectBestGuestModifier. -/
def selectBestGuestModifier (basePrice : ℚ) (modifiers : List Modifier)
    (age : Int) : Option Modifier :=
  (selectBestGuestModifierFull basePrice modifiers age).1

/-- Guest record; only id (traceability) and age (modifier selection) are read. -/
structure Guest where
  id : String := ""
  age : Int := 0
deriving DecidableEq

/-- Inclusive date window (availableForReservation / availableForTravel). -/
structure DateWindow where
  fromD : Int
  toD : Int
deriving DecidableEq

/-- restrictions.bookingCutOff with optional min and max in days. -/
structure BookingCutOff where
  min : Option Int := none
  max : Option Int := none
deriving DecidableEq

/-- restrictions.lengthOfStay with optional min and max in nights. -/
structure LOSRange where
  min : Option Nat := none
  max : Option Nat := none
deriving DecidableEq

/-- Rate plan restrictions object. -/
structure Restrictions where
  bookingCutOff : Option BookingCutOff := none
  lengthOfStay : Option LOSRange := none
deriving DecidableEq

/-- Rate plan entity; fields not read by the embedded operations are omitted. -/
structure RatePlan where
  id : String := ""
  price : ℚ := 0
  currency : Option String := none
  roomTypeIds : List String := []
  availableForReservation : Option DateWindow := none
  availableForTravel : Option DateWindow := none
  restrictions : Option Restrictions := none
  modifiers : List Modifier := []
deriving DecidableEq

/-- Room type entity; the pricing code reads only its id. -/
structure RoomType where
  id : String := ""
deriving DecidableEq

/-- JS truthiness of an optional integer (for bookingCutOff bounds). -/
def intTruthy : Option Int → Option Int
  | some 0 => none
  | o => o

/-- rp.currency or the fallback: the JS || also replaces an empty string. -/
def effCurrency (rp : RatePlan) (fallback : String) : String :=
  match rp.currency with
  | some s => if s = "" then fallback else s
  | none => fallback

/-- One per-guest result line of computeDailyPrice. -/
structure GuestPriceLine where
  guestId : String
  ratePlanId : String
  currency : String
  basePrice : ℚ
  modifier : Option Modifier := none
  resultingPrice : ℚ
deriving DecidableEq

/-- Left fold with the zero currency value, as the reduce calls over
currency.js instances. -/
def ratSum (l : List ℚ) : ℚ :=
  l.foldl (· + ·) 0

/-- computeDailyPrice from src/prices/index.js: resolves the applicable
modifiers once, then prices every guest with the best modifier for its age.
The modifier field is attached only when the selected change is truthy
(present and nonzero); the price delta is that same change, or zero. -/
def computeDailyPrice (guests : List Guest) (lengthOfStay : Nat)
    (dateDayjs : Int) (ratePlan : RatePlan) (currentCurrency : String) :
    List GuestPriceLine :=
  let applicableModifiers :=
    selectApplicableModifiers ratePlan.modifiers dateDayjs lengthOfStay guests.length
  guests.map (fun g =>
    let selectedModifier := selectBestGuestModifier ratePlan.price applicableModifiers g.age
    let delta : ℚ :=
      match selectedModifier with
      | some sm => sm.change.getD 0
      | none => 0
    let modField : Option Modifier :=
      match selectedModifier with
      | some sm => if sm.change.getD 0 = 0 then none else some sm
      | none => none
    { guestId := g.id
      ratePlanId := ratePlan.id
      currency := currentCurrency
      basePrice := ratePlan.price
      modifier := modField
      resultingPrice := ratePlan.price + delta })

/-- The per-day availableForTravel check of computeDailyRatePlans: a plan
without the window is compared against the current date itself on both
sides, hence always passes. -/
def dateOkForTravel (rp : RatePlan) (currentDate : Int) : Bool :=
  match rp.availableForTravel with
  | some w => decide (w.fromD ≤ currentDate) && decide (currentDate ≤ w.toD)
  | none => true

/-- One candidate entry of the stay matrix. -/
structure DayEntry where
  date : Int
  ratePlan : RatePlan
  total : ℚ
  guestPrices : List GuestPriceLine
deriving DecidableEq

/-- Candidate entries for one day and one currency, in rate-plan order: the
body of the inner loop of computeDailyRatePlans restricted to the plans
whose effective currency is c and whose travel window covers the date. -/
def dayCandidates (guests : List Guest) (lengthOfStay : Nat)
    (hotelCurrency : String) (plans : List RatePlan) (currentDate : Int)
    (c : String) : List DayEntry :=
  plans.filterMap (fun rp =>
    if (effCurrency rp hotelCurrency == c) && dateOkForTravel rp currentDate then
      let dailyPrice := computeDailyPrice guests lengthOfStay currentDate rp c
      some { date := currentDate
             ratePlan := rp
             total := ratSum (dailyPrice.map GuestPriceLine.resultingPrice)
             guestPrices := dailyPrice }
    else none)

/-- Currency keys in first-occurrence order: the JS object collects its keys
while iterating the plans on day 0 (every plan touches its currency bucket
regardless of the travel-window check). -/
def firstOccur : List String → List String → List String
  | _, [] => []
  | seen, c :: rest =>
    if c ∈ seen then firstOccur seen rest
    else c :: firstOccur (c :: seen) rest

/-- computeDailyRatePlans from src/prices/index.js.  The double loop over
days and plans builds, for every currency bucket, one candidate list per
day index; since the plan list is the same on every day, bucket c holds
exactly dayCandidates for each day.  The final pass deletes every currency
with fewer than lengthOfStay nonempty days.  With lengthOfStay = 0 the loop
body never runs and the result is empty. -/
def computeDailyRatePlans (arrivalDateDayjs departureDateDayjs : Int)
    (guests : List Guest) (hotelCurrency : String)
    (applicableRatePlans : List RatePlan) :
    List (String × List (List DayEntry)) :=
  let lengthOfStay := (arrivalDateDayjs - departureDateDayjs).natAbs
  let built :=
    if lengthOfStay = 0 then []
    else
      (firstOccur [] (applicableRatePlans.map (fun rp => effCurrency rp hotelCurrency))).map
        (fun c =>
          (c, (List.range lengthOfStay).map
            (fun (i : Nat) =>
              dayCandidates guests lengthOfStay hotelCurrency applicableRatePlans
                (arrivalDateDayjs + (i : Int)) c)))
  built.filter (fun p =>
    ! decide ((p.2.filter (fun d => ! d.isEmpty)).length < lengthOfStay))

/-- selectApplicableRatePlans from src/prices/rate-plans.js: a pure filter
combining room-type membership, optional currency preference, reservation
and travel windows, booking cut-offs and length-of-stay restrictions. -/
def selectApplicableRatePlans (roomTypeId : String) (ratePlans : List RatePlan)
    (bookingDateDayjs arrivalDateDayjs departureDateDayjs : Int)
    (fallbackCurrency : String) (preferredCurrency : Option String) :
    List RatePlan :=
  let lengthOfStay := (arrivalDateDayjs - departureDateDayjs).natAbs
  ratePlans.filter (fun rp =>
    if ! rp.roomTypeIds.contains roomTypeId then false
    else if (match preferredCurrency with
             | some pc => decide (pc ≠ "") && decide (effCurrency rp fallbackCurrency ≠ pc)
             | none => false : Bool) then false
    else if (match rp.availableForReservation with
             | some w => decide (w.toD < bookingDateDayjs) || decide (bookingDateDayjs < w.fromD)
             | none => false : Bool) then false
    else if (match rp.availableForTravel with
             | some w => decide (w.toD < arrivalDateDayjs) || decide (departureDateDayjs < w.fromD)
             | none => false : Bool) then false
    else if (match rp.restrictions with
             | some r =>
               match r.bookingCutOff with
               | some bc =>
                 (match intTruthy bc.min with
                  | some v => decide (arrivalDateDayjs - v < bookingDateDayjs)
                  | none => false) ||
                 (match intTruthy bc.max with
                  | some v => decide (bookingDateDayjs < arrivalDateDayjs - v)
                  | none => false)
               | none => false
             | none => false : Bool) then false
    else if (match rp.restrictions with
             | some r =>
               match r.lengthOfStay with
               | some lr =>
                 (match natTruthy lr.min with
                  | some v => decide (lengthOfStay < v)
                  | none => false) ||
                 (match natTruthy lr.max with
                  | some v => decide (v < lengthOfStay)
                  | none => false)
               | none => false
             | none => false : Bool) then false
    else true)

/-- Error scoped to PriceComputer. -/
structure PriceComputerError where
  message : String
deriving DecidableEq

/-- The price computation facade; immutable state set at construction. -/
structure PriceComputer where
  roomTypes : List RoomType
  ratePlans : List RatePlan
  defaultCurrency : String
deriving DecidableEq

/-- JS falsiness of an optional string (missing or empty). -/
def strFalsy : Option String → Bool
  | none => true
  | some s => decide (s = "")

/-- The PriceComputer constructor.  Option models a possibly missing
argument; a missing list or a missing or empty currency string is falsy and
throws the corresponding PriceComputerError, otherwise the instance stores
the three inputs unchanged. -/
def PriceComputer.construct (roomTypes : Option (List RoomType))
    (ratePlans : Option (List RatePlan)) (defaultCurrency : Option String) :
    Except PriceComputerError PriceComputer :=
  match roomTypes with
  | none => Except.error { message := "Missing roomTypes" }
  | some rts =>
    match ratePlans with
    | none => Except.error { message := "Missing ratePlans" }
    | some rps =>
      match defaultCurrency with
      | none => Except.error { message := "Missing defaultCurrency" }
      | some dc =>
        if dc = "" then Except.error { message := "Missing defaultCurrency" }
        else Except.ok { roomTypes := rts, ratePlans := rps, defaultCurrency := dc }

/-- The room types examined by _determinePrices: all of them, or the ones
matching a truthy roomTypeId filter. -/
def filteredRoomTypes (pc : PriceComputer) (roomTypeId : Option String) :
    List RoomType :=
  match roomTypeId with
  | some rid =>
    if rid = "" then pc.roomTypes else pc.roomTypes.filter (fun rt => rt.id == rid)
  | none => pc.roomTypes

/-- The reduce that picks the cheapest entry of one day in getBestPrice.
The disjunct !agg.total of the source is a truthiness test on a currency.js
object and is constantly false; agg.total.subtract(curr.total) >= 0 keeps
the later entry whenever its total is less than or equal. -/
def dailyBestReduce (d : List DayEntry) : Option DayEntry :=
  d.foldl (fun agg curr =>
    match agg with
    | none => some curr
    | some a => if 0 ≤ a.total - curr.total then some curr else some a) none

/-- Insertion into the dailyBests object keyed by formatted date: an existing
key is overwritten in place, a new key is appended. -/
def upsertDate (acc : List (Int × DayEntry)) (key : Int) (v : DayEntry) :
    List (Int × DayEntry) :=
  if acc.any (fun p => p.1 == key) then
    acc.map (fun p => if p.1 == key then (key, v) else p)
  else acc ++ [(key, v)]

/-- The dailyBests map of getBestPrice: per day, the cheapest entry keyed by
the date of the first entry of that day.  An empty day is unreachable here
(the coverage filter ran first); the source would throw reading [0].date. -/
def dailyBestsOf (days : List (List DayEntry)) : List (Int × DayEntry) :=
  days.foldl (fun acc d =>
    match d with
    | [] => acc
    | e :: _ =>
      match dailyBestReduce d with
      | some b => upsertDate acc e.date b
      | none => acc) []

/-- One drilldown line ({date, subtotal, prices}). -/
structure Drill where
  date : Int
  subtotal : ℚ
  prices : List GuestPriceLine
deriving DecidableEq

/-- One getBestPrice result entry for a currency. -/
structure BestPrice where
  currency : String
  total : ℚ
  drilldown : List Drill
deriving DecidableEq

/-- The strategy callback of getBestPrice over the filtered day matrix. -/
def bestPriceStrategy (dailyPrices : List (String × List (List DayEntry))) :
    List BestPrice :=
  dailyPrices.map (fun p =>
    let db := dailyBestsOf p.2
    { currency := p.1
      total := ratSum (db.map (fun kb => kb.2.total))
      drilldown := db.map (fun kb =>
        { date := kb.1
          subtotal := ratSum (kb.2.guestPrices.map GuestPriceLine.resultingPrice)
          prices := kb.2.guestPrices }) })

/-- Per room type result of getBestPrice. -/
structure RoomBestPrices where
  id : String
  prices : List BestPrice
deriving DecidableEq

/-- The body of the roomTypes.map of _determinePrices, specialised to the
getBestPrice strategy: empty prices when no rate plan is applicable. -/
def PriceComputer.bestPriceForRoom (pc : PriceComputer)
    (bookingDate arrivalDate departureDate : Int) (guests : List Guest)
    (currency : Option String) (rt : RoomType) : RoomBestPrices :=
  let applicableRatePlans :=
    selectApplicableRatePlans rt.id pc.ratePlans bookingDate arrivalDate
      departureDate pc.defaultCurrency currency
  if applicableRatePlans.isEmpty then { id := rt.id, prices := [] }
  else
    { id := rt.id
      prices := bestPriceStrategy
        (computeDailyRatePlans arrivalDate departureDate guests
          pc.defaultCurrency applicableRatePlans) }

/-- PriceComputer.getBestPrice. -/
def PriceComputer.getBestPrice (pc : PriceComputer)
    (bookingDate arrivalDate departureDate : Int) (guests : List Guest)
    (currency roomTypeId : Option String) : List RoomBestPrices :=
  (filteredRoomTypes pc roomTypeId).map
    (pc.bestPriceForRoom bookingDate arrivalDate departureDate guests currency)

/-- One bucket of the ratePlanOccurrences object. -/
structure RPGroup where
  ratePlan : RatePlan
  dailyPrices : List DayEntry
deriving DecidableEq

/-- Inserting one day entry into ratePlanOccurrences, keyed by ratePlan.id:
a new key is appended with the entry as first member, an existing bucket
has the entry pushed at the end. -/
def groupStep (acc : List (String × RPGroup)) (e : DayEntry) :
    List (String × RPGroup) :=
  if acc.any (fun p => p.1 == e.ratePlan.id) then
    acc.map (fun p =>
      if p.1 == e.ratePlan.id then
        (p.1, { p.2 with dailyPrices := p.2.dailyPrices ++ [e] })
      else p)
  else acc ++ [(e.ratePlan.id, { ratePlan := e.ratePlan, dailyPrices := [e] })]

/-- The ratePlanOccurrences object built over all days of one currency. -/
def ratePlanOccurrences (days : List (List DayEntry)) : List (String × RPGroup) :=
  days.foldl (fun acc d => d.foldl groupStep acc) []

/-- One qualified rate-plan offer ({ratePlan, total, drilldown}). -/
structure SinglePriceEntry where
  ratePlan : RatePlan
  total : ℚ
  drilldown : List Drill
deriving DecidableEq

/-- Builds the offer of one qualifying group: summed total and per-day
drilldown using the day totals as subtotals. -/
def mkSinglePriceEntry (g : RPGroup) : SinglePriceEntry :=
  { ratePlan := g.ratePlan
    total := ratSum (g.dailyPrices.map DayEntry.total)
    drilldown := g.dailyPrices.map (fun b =>
      { date := b.date, subtotal := b.total, prices := b.guestPrices }) }

/-- Ordering of the descending sort (a, b) => a.total >= b.total ? -1 : 1;
popping the last element of the sort yields a minimal total. -/
def totalGe (a b : SinglePriceEntry) : Prop :=
  b.total ≤ a.total

instance : DecidableRel totalGe := fun a b =>
  inferInstanceAs (Decidable (b.total ≤ a.total))

instance : IsTotal SinglePriceEntry totalGe :=
  ⟨fun a b => le_total b.total a.total⟩

instance : IsTrans SinglePriceEntry totalGe :=
  ⟨fun _ _ _ h1 h2 => le_trans h2 h1⟩

/-- One getBestPriceWithSingleRatePlan result entry: when no rate plan
covers every night the spread of undefined leaves only the currency. -/
structure SinglePrice where
  currency : String
  ratePlan : Option RatePlan := none
  total : Option ℚ := none
  drilldown : Option (List Drill) := none
deriving DecidableEq

/-- The per-currency body of the getBestPriceWithSingleRatePlan strategy:
group by rate plan, keep full-coverage groups, sort descending by total and
pop the last (cheapest) one. -/
def singleBestForCurrency (lengthOfStay : Nat)
    (p : String × List (List DayEntry)) : SinglePrice :=
  let qs := ((ratePlanOccurrences p.2).map Prod.snd).filter
    (fun g => g.dailyPrices.length == lengthOfStay)
  match (List.insertionSort totalGe (qs.map mkSinglePriceEntry)).getLast? with
  | some best =>
    { currency := p.1
      ratePlan := some best.ratePlan
      total := some best.total
      drilldown := some best.drilldown }
  | none => { currency := p.1 }

/-- The strategy callback of getBestPriceWithSingleRatePlan. -/
def singleBestStrategy (dailyPrices : List (String × List (List DayEntry)))
    (lengthOfStay : Nat) : List SinglePrice :=
  dailyPrices.map (singleBestForCurrency lengthOfStay)

/-- Per room type result of getBestPriceWithSingleRatePlan. -/
structure RoomSinglePrices where
  id : String
  prices : List SinglePrice
deriving DecidableEq

/-- The per-room body of _determinePrices for getBestPriceWithSingleRatePlan. -/
def PriceComputer.singleBestForRoom (pc : PriceComputer)
    (bookingDate arrivalDate departureDate : Int) (guests : List Guest)
    (currency : Option String) (rt : RoomType) : RoomSinglePrices :=
  let lengthOfStay := (arrivalDate - departureDate).natAbs
  let applicableRatePlans :=
    selectApplicableRatePlans rt.id pc.ratePlans bookingDate arrivalDate
      departureDate pc.defaultCurrency currency
  if applicableRatePlans.isEmpty then { id := rt.id, prices := [] }
  else
    { id := rt.id
      prices := singleBestStrategy
        (computeDailyRatePlans arrivalDate departureDate guests
          pc.defaultCurrency applicableRatePlans) lengthOfStay }

/-- PriceComputer.getBestPriceWithSingleRatePlan. -/
def PriceComputer.getBestPriceWithSingleRatePlan (pc : PriceComputer)
    (bookingDate arrivalDate departureDate : Int) (guests : List Guest)
    (currency roomTypeId : Option String) : List RoomSinglePrices :=
  (filteredRoomTypes pc roomTypeId).map
    (pc.singleBestForRoom bookingDate arrivalDate departureDate guests currency)

/-- One getPossiblePricesWithSingleRatePlan entry for a currency. -/
structure PossiblePrice where
  currency : String
  ratePlans : List SinglePriceEntry
deriving DecidableEq

/-- The per-currency body of the getPossiblePricesWithSingleRatePlan
strategy: all full-coverage groups, in grouping order. -/
def possibleForCurrency (lengthOfStay : Nat)
    (p : String × List (List DayEntry)) : PossiblePrice :=
  { currency := p.1
    ratePlans := (((ratePlanOccurrences p.2).map Prod.snd).filter
      (fun g => g.dailyPrices.length == lengthOfStay)).map mkSinglePriceEntry }

/-- The strategy callback of getPossiblePricesWithSingleRatePlan. -/
def possiblePricesStrategy (dailyPrices : List (String × List (List DayEntry)))
    (lengthOfStay : Nat) : List PossiblePrice :=
  dailyPrices.map (possibleForCurrency lengthOfStay)

/-- Per room type result of getPossiblePricesWithSingleRatePlan. -/
structure RoomPossiblePrices where
  id : String
  prices : List PossiblePrice
deriving DecidableEq

/-- The per-room body of _determinePrices for
getPossiblePricesWithSingleRatePlan. -/
def PriceComputer.possibleForRoom (pc : PriceComputer)
    (bookingDate arrivalDate departureDate : Int) (guests : List Guest)
    (currency : Option String) (rt : RoomType) : RoomPossiblePrices :=
  let lengthOfStay := (arrivalDate - departureDate).natAbs
  let applicableRatePlans :=
    selectApplicableRatePlans rt.id pc.ratePlans bookingDate arrivalDate
      departureDate pc.defaultCurrency currency
  if applicableRatePlans.isEmpty then { id := rt.id, prices := [] }
  else
    { id := rt.id
      prices := possiblePricesStrategy
        (computeDailyRatePlans arrivalDate departureDate guests
          pc.defaultCurrency applicableRatePlans) lengthOfStay }

/-- PriceComputer.getPossiblePricesWithSingleRatePlan. -/
def PriceComputer.getPossiblePricesWithSingleRatePlan (pc : PriceComputer)
    (bookingDate arrivalDate departureDate : Int) (guests : List Guest)
    (currency roomTypeId : Option String) : List RoomPossiblePrices :=
  (filteredRoomTypes pc roomTypeId).map
    (pc.possibleForRoom bookingDate arrivalDate departureDate guests currency)

/-- Cancellation policy (src/cancellation-fees.js); dates are day numbers. -/
structure CancellationPolicy where
  fromD : Option Int := none
  toD : Option Int := none
  deadline : Int := 0
  amount : ℚ := 0
deriving DecidableEq

/-- Result record of normalizePolicyDates.  fromD is the result of the find
over the descending options and is none only when every option lies after
the arrival (impossible when the booking date does not). -/
structure NormalizedPolicy where
  fromD : Option Int
  toD : Int
  amount : ℚ
deriving DecidableEq

/-- Descending order on integers used for the fromOptions sort
(comparator (a, b) => a.isAfter(b) ? -1 : 1). -/
def intGe (a b : Int) : Prop :=
  b ≤ a

instance : DecidableRel intGe := fun a b =>
  inferInstanceAs (Decidable (b ≤ a))

instance : IsTotal Int intGe :=
  ⟨fun a b => le_total b a⟩

instance : IsTrans Int intGe :=
  ⟨fun _ _ _ h1 h2 => le_trans h2 h1⟩

/-- normalizePolicyDates: drops policies strictly after arrival or strictly
before booking, then resolves the effective window: the from candidates are
the booking date, arrival minus deadline, and the declared from; the
descending sort followed by find picks the latest one not after arrival.
The effective to is the declared to when before arrival, else arrival. -/
def normalizePolicyDates (bookingDateDayjs arrivalDayjs : Int)
    (cancellationPolicies : List CancellationPolicy) : List NormalizedPolicy :=
  (cancellationPolicies.filter (fun cp =>
    ! ((match cp.fromD with
        | some f => decide (arrivalDayjs < f)
        | none => false) ||
       (match cp.toD with
        | some t => decide (t < bookingDateDayjs)
        | none => false)))).map
    (fun cp =>
      let deadlineStart := arrivalDayjs - cp.deadline
      let fromOptions := [bookingDateDayjs, deadlineStart] ++
        (match cp.fromD with
         | some f => [f]
         | none => [])
      let fromRes := (List.insertionSort intGe fromOptions).find?
        (fun x => decide (x ≤ arrivalDayjs))
      let toRes :=
        match cp.toD with
        | some t => if t < arrivalDayjs then t else arrivalDayjs
        | none => arrivalDayjs
      { fromD := fromRes, toD := toRes, amount := cp.amount })

/-- One entry of the day-indexed cancellationFees object. -/
structure FeeDay where
  dateDayjs : Int
  amount : ℚ
deriving DecidableEq

/-- The inclusive day range walked by the while loops (empty when the start
lies after the end). -/
def rangeDays (f t : Int) : List Int :=
  if f ≤ t then (List.range ((t - f).toNat + 1)).map (fun i => f + (i : Int))
  else []

/-- Inserting one policy day: an existing day keeps its record but raises
the amount to the maximum, a new day is appended. -/
def insertFeeDay (m : List (Int × FeeDay)) (d : Int) (amt : ℚ) :
    List (Int × FeeDay) :=
  if m.any (fun p => p.1 == d) then
    m.map (fun p =>
      if p.1 == d then (p.1, { p.2 with amount := max p.2.amount amt }) else p)
  else m ++ [(d, { dateDayjs := d, amount := amt })]

/-- Ascending order on fee days used by the final sort of createFeeSchedule
(day keys are unique, so ties never arise). -/
def feeDayLe (a b : FeeDay) : Prop :=
  a.dateDayjs ≤ b.dateDayjs

instance : DecidableRel feeDayLe := fun a b =>
  inferInstanceAs (Decidable (a.dateDayjs ≤ b.dateDayjs))

instance : IsTotal FeeDay feeDayLe :=
  ⟨fun a b => le_total a.dateDayjs b.dateDayjs⟩

instance : IsTrans FeeDay feeDayLe :=
  ⟨fun _ _ _ h1 h2 => le_trans h1 h2⟩

/-- createFeeSchedule: walks every normalized policy over its inclusive day
window keeping the maximum amount per day, fills every uncovered day
between booking and arrival with the default amount, and returns the
records sorted by date.  A policy whose resolved from is missing is skipped
here: the source would restart its loop from the current clock, which is
unreachable for booking dates not after the arrival. -/
def createFeeSchedule (bookingDateDayjs arrivalDayjs : Int)
    (normalizedCancellationPolicies : List NormalizedPolicy)
    (defaultCancellationAmount : ℚ) : List FeeDay :=
  let m := normalizedCancellationPolicies.foldl
    (fun m p =>
      match p.fromD with
      | some f => (rangeDays f p.toD).foldl (fun m d => insertFeeDay m d p.amount) m
      | none => m) []
  let m2 := (rangeDays bookingDateDayjs arrivalDayjs).foldl
    (fun m d =>
      if m.any (fun p => p.1 == d) then m
      else m ++ [(d, { dateDayjs := d, amount := defaultCancellationAmount })]) m
  List.insertionSort feeDayLe (m2.map Prod.snd)

/-- One compacted fee period with inclusive bounds. -/
structure Period where
  fromD : Int
  toD : Int
  amount : ℚ
deriving DecidableEq

/-- reduceFeeSchedule: compacts consecutive equal-amount days into periods;
when the amount changes the open period is closed at the previous day.
The source reads orderedSchedule[0], so an empty schedule (unreachable from
computeCancellationFees) is mapped to []. -/
def reduceFeeSchedule (orderedSchedule : List FeeDay) : List Period :=
  match orderedSchedule with
  | [] => []
  | first :: _ =>
    let res := orderedSchedule.foldl
      (fun (st : (Int × ℚ) × List Period) fd =>
        if fd.amount ≠ st.1.2 then
          ((fd.dateDayjs, fd.amount),
            st.2 ++ [{ fromD := st.1.1, toD := fd.dateDayjs - 1, amount := st.1.2 }])
        else st)
      ((first.dateDayjs, first.amount), [])
    match orderedSchedule.getLast? with
    | some lastFd =>
      res.2 ++ [{ fromD := res.1.1, toD := lastFd.dateDayjs, amount := res.1.2 }]
    | none => res.2

/-- computeCancellationFees: the start-of-day and end-of-day adjustments of
the source are the identity at day granularity.  Without policies the whole
span is covered by the default amount. -/
def computeCancellationFees (bookingDate arrivalDate : Int)
    (cancellationPolicies : List CancellationPolicy)
    (defaultCancellationAmount : ℚ) : List Period :=
  if cancellationPolicies.isEmpty then
    [{ fromD := bookingDate, toD := arrivalDate, amount := defaultCancellationAmount }]
  else
    reduceFeeSchedule
      (createFeeSchedule bookingDate arrivalDate
        (normalizePolicyDates bookingDate arrivalDate cancellationPolicies)
        defaultCancellationAmount)

/-- A modifier with its change field cleared; used to express which part of
a caller-owned modifier a call may write. -/
def eraseChange (m : Modifier) : Modifier :=
  { m with change := none }

end WT

-- sanity checks against the repository test suite (rate-plans.spec.js)

example :
    WT.selectApplicableModifiers
      [{ mtype := some WT.MType.absolute, adjustment := 10 }] 0 3 1 = [] := by
  decide

example :
    (WT.selectApplicableModifiers
      [{ mtype := some WT.MType.absolute, adjustment := -25,
         conditions := some { maxAge := some 10 } },
       { mtype := some WT.MType.absolute, adjustment := -33,
         conditions := some { maxAge := some 12 } }] 0 3 1).length = 2 := by
  decide

example :
    WT.selectApplicableModifiers
      [{ mtype := some WT.MType.absolute, adjustment := -50,
         conditions := some { minLengthOfStay := some 6 } },
       { mtype := some WT.MType.absolute, adjustment := -10,
         conditions := some { minLengthOfStay := some 7 } },
       { mtype := some WT.MType.absolute, adjustment := -25,
         conditions := some { minLengthOfStay := some 5 } }] 0 7 1
    = [{ mtype := some WT.MType.absolute, adjustment := -10,
         conditions := some { minLengthOfStay := some 7 } }] := by
  decide

example :
    WT.selectApplicableModifiers
      [{ mtype := some WT.MType.absolute, adjustment := -10,
         conditions := some { minOccupants := some 7 } },
       { mtype := some WT.MType.absolute, adjustment := -25,
         conditions := some { minOccupants := some 5 } }] 0 3 7
    = [{ mtype := some WT.MType.absolute, adjustment := -10,
         conditions := some { minOccupants := some 7 } }] := by
  decide

example :
    WT.selectBestGuestModifier 50
      [{ mtype := some WT.MType.absolute, adjustment := -25,
         conditions := some { maxAge := some 10 } }] 11 = none := by
  decide

-- the highest fitting limit test: percentage -10 (maxAge 25), absolute -17
-- (maxAge 18), percentage -25 (maxAge 16), guest age 16 selects the absolute
-- -17 modifier
example :
    WT.selectBestGuestModifier 50
      [{ mtype := some WT.MType.percentage, adjustment := -10,
         conditions := some { maxAge := some 25 } },
       { mtype := some WT.MType.absolute, adjustment := -17,
         conditions := some { maxAge := some 18 } },
       { mtype := some WT.MType.percentage, adjustment := -25,
         conditions := some { maxAge := some 16 } }] 16
    = some { mtype := some WT.MType.absolute, adjustment := -17,
             conditions := some { maxAge := some 18 }, change := some (-17) } := by
  norm_num [WT.selectBestGuestModifier, WT.selectBestGuestModifierFull,
    WT.sbgmGo, WT.computeChange, WT.condMaxAge, WT.isAgeMod, List.enumFrom,
    List.filter]

namespace WT

theorem enumFrom_map_eraseChange (log : List (Nat × ℚ)) :
    ∀ (mods : List Modifier) (k : Nat),
      ((List.enumFrom k mods).map (fun im =>
        match log.lookup im.1 with
        | some v => { im.2 with change := some v }
        | none => im.2)).map eraseChange = mods.map eraseChange := by
  intro mods
  induction mods with
  | nil => intro k; rfl
  | cons m t ih =>
    intro k
    simp only [List.enumFrom, List.map_cons, ih (k + 1)]
    congr 1
    cases log.lookup k <;> rfl

theorem applyChangeLog_map_eraseChange (log : List (Nat × ℚ))
    (mods : List Modifier) :
    (applyChangeLog mods log).map eraseChange = mods.map eraseChange :=
  enumFrom_map_eraseChange log mods 0

/-- C7 (amended): the pricing operations never mutate guests, room types or
rate-plan scalar data, but selectBestGuestModifier does write a change field
onto the caller modifier objects; apart from the change field the modifier
list is returned to the caller exactly as supplied. -/
theorem c7_only_change_field_mutated (basePrice : ℚ) (modifiers : List Modifier)
    (age : Int) :
    ((selectBestGuestModifierFull basePrice modifiers age).2).map eraseChange
      = modifiers.map eraseChange := by
  simp only [selectBestGuestModifierFull]
  split
  · exact applyChangeLog_map_eraseChange _ modifiers
  · exact applyChangeLog_map_eraseChange _ modifiers

/-- C7 counterexample: a single generic absolute modifier is mutated by a
selectBestGuestModifier call (its change field is written), so the
caller-supplied entities are not left unchanged. -/
theorem c7_counterexample :
    (selectBestGuestModifierFull 100
      [{ mtype := some MType.absolute, adjustment := -10,
         conditions := some {} }] 30).2
      ≠ [{ mtype := some MType.absolute, adjustment := -10,
           conditions := some {} }] := by
  decide

/-- C9: PriceComputer construction fails with a PriceComputerError exactly
when one of roomTypes, ratePlans, defaultCurrency is missing (falsy), and
otherwise stores exactly the three inputs. -/
theorem c9_constructor (roomTypes : Option (List RoomType))
    (ratePlans : Option (List RatePlan)) (defaultCurrency : Option String) :
    ((∃ e, PriceComputer.construct roomTypes ratePlans defaultCurrency
        = Except.error e) ↔
      (roomTypes.isNone ∨ ratePlans.isNone ∨ strFalsy defaultCurrency = true)) ∧
    (∀ rts rps s, roomTypes = some rts → ratePlans = some rps →
      defaultCurrency = some s → s ≠ "" →
      PriceComputer.construct roomTypes ratePlans defaultCurrency
        = Except.ok { roomTypes := rts, ratePlans := rps, defaultCurrency := s }) := by
  constructor
  · cases roomTypes with
    | none => simp [PriceComputer.construct]
    | some rts =>
      cases ratePlans with
      | none => simp [PriceComputer.construct]
      | some rps =>
        cases defaultCurrency with
        | none => simp [PriceComputer.construct, strFalsy]
        | some s =>
          by_cases hs : s = "" <;>
            simp [PriceComputer.construct, strFalsy, hs]
  · intro rts rps s h1 h2 h3 h4
    subst h1; subst h2; subst h3
    simp [PriceComputer.construct, h4]

/-- C9 witness: a fully supplied constructor call succeeds with the stored
state, and dropping roomTypes raises the error. -/
theorem c9_constructor_witness :
    PriceComputer.construct (some [{ id := "rt" }]) (some []) (some "EUR")
      = Except.ok { roomTypes := [{ id := "rt" }], ratePlans := [],
                    defaultCurrency := "EUR" } ∧
    (∃ e, PriceComputer.construct none (some []) (some "EUR") = Except.error e) := by
  constructor
  · exact (c9_constructor (some [{ id := "rt" }]) (some []) (some "EUR")).2
      [{ id := "rt" }] [] "EUR" rfl rfl rfl (by decide)
  · exact (c9_constructor none (some []) (some "EUR")).1.mpr (by decide)

/-- C8: computeCancellationFees on the specification scenario, a single
policy with deadline 10 and amount 50, booked 30 days before arrival with
default amount 100: the policy window is clamped to the latest of the
booking date and arrival minus deadline, uncovered days get the default,
and the compaction returns exactly the periods booking..arrival-11 at 100
and arrival-10..arrival at 50. -/
theorem c8_cancellation_scenario :
    computeCancellationFees 0 30 [{ deadline := 10, amount := 50 }] 100
      = [{ fromD := 0, toD := 19, amount := 100 },
         { fromD := 20, toD := 30, amount := 50 }] := by
  decide

/-- C6 (amended): selectApplicableModifiers checks the condition kinds in
sequence: a modifier carrying a truthy satisfied minLengthOfStay is kept on
that basis alone, whatever its minOccupants says (even one exceeding the
guest count); minOccupants is evaluated only for modifiers without a truthy
minLengthOfStay. -/
theorem c6_condition_order (dateDayjs : Int) (lengthOfStay numberOfGuests : Nat)
    (t : MType) (adj : ℚ) (ch : Option ℚ) (c : MConditions)
    (hdate : dateCondFails c dateDayjs = false) :
    ((∃ v, natTruthy c.minLengthOfStay = some v ∧ v ≤ lengthOfStay) →
      selectApplicableModifiers
        [{ mtype := some t, adjustment := adj, conditions := some c, change := ch }]
        dateDayjs lengthOfStay numberOfGuests
        = [{ mtype := some t, adjustment := adj, conditions := some c, change := ch }]) ∧
    (natTruthy c.minLengthOfStay = none →
      ∀ w, natTruthy c.minOccupants = some w → numberOfGuests < w →
      selectApplicableModifiers
        [{ mtype := some t, adjustment := adj, conditions := some c, change := ch }]
        dateDayjs lengthOfStay numberOfGuests = []) := by
  constructor
  · rintro ⟨v, hv, hvle⟩
    simp [selectApplicableModifiers, samGo, samStep, hdate, hv, Nat.not_lt.mpr hvle]
  · intro hlos w hw hnw
    simp [selectApplicableModifiers, samGo, samStep, hdate, hlos, hw, hnw]

/-- C6 witness: with stay length 2 and one guest, a modifier demanding
minLengthOfStay 1 and minOccupants 5 is kept, and a modifier demanding only
minOccupants 5 is dropped. -/
theorem c6_condition_order_witness :
    selectApplicableModifiers
      [{ mtype := some MType.absolute, adjustment := -5,
         conditions := some { minLengthOfStay := some 1, minOccupants := some 5 } }]
      0 2 1
      = [{ mtype := some MType.absolute, adjustment := -5,
           conditions := some { minLengthOfStay := some 1, minOccupants := some 5 } }] ∧
    selectApplicableModifiers
      [{ mtype := some MType.absolute, adjustment := -5,
         conditions := some { minOccupants := some 5 } }] 0 2 1 = [] := by
  constructor
  · exact (c6_condition_order 0 2 1 MType.absolute (-5) none
      { minLengthOfStay := some 1, minOccupants := some 5 } (by decide)).1
      ⟨1, by decide, by decide⟩
  · exact (c6_condition_order 0 2 1 MType.absolute (-5) none
      { minOccupants := some 5 } (by decide)).2 (by decide) 5 (by decide) (by decide)

/-- C6 counterexample: the claim demands that a modifier whose minOccupants
exceeds the guest count be dropped even when its minLengthOfStay passes;
the code keeps it (minOccupants 5 with a single guest, minLengthOfStay 1
with a two-night stay). -/
theorem c6_counterexample :
    selectApplicableModifiers
      [{ mtype := some MType.absolute, adjustment := -5,
         conditions := some { minLengthOfStay := some 1, minOccupants := some 5 } }]
      0 2 1 ≠ [] := by
  decide

end WT

namespace WT

theorem filter_le_length_all {α : Type} (p : α → Bool) (l : List α)
    (h : l.length ≤ (l.filter p).length) : ∀ x ∈ l, p x := by
  induction l with
  | nil => simp
  | cons a t ih =>
    by_cases hp : p a
    · intro x hx
      rcases List.mem_cons.mp hx with rfl | hx'
      · exact hp
      · exact ih (by simpa [List.filter_cons, hp] using h) x hx'
    · exfalso
      simp only [List.filter_cons, hp, List.length_cons, Bool.false_eq_true,
        if_false] at h
      have := List.length_filter_le p t
      omega

theorem mem_computeDailyRatePlans {arrival departure : Int}
    {guests : List Guest} {hc : String} {plans : List RatePlan}
    {c : String} {days : List (List DayEntry)}
    (hmem : (c, days) ∈ computeDailyRatePlans arrival departure guests hc plans) :
    days = (List.range (arrival - departure).natAbs).map
      (fun (i : Nat) => dayCandidates guests (arrival - departure).natAbs hc plans
        (arrival + (i : Int)) c) ∧
    ¬ ((days.filter (fun dl => ! dl.isEmpty)).length
        < (arrival - departure).natAbs) ∧
    0 < (arrival - departure).natAbs := by
  simp only [computeDailyRatePlans] at hmem
  rcases List.mem_filter.mp hmem with ⟨hin, hcond⟩
  have hcond' : ¬ ((days.filter (fun dl => ! dl.isEmpty)).length
      < (arrival - departure).natAbs) := by
    simpa using hcond
  by_cases h0 : (arrival - departure).natAbs = 0
  · rw [if_pos h0] at hin
    simp at hin
  · rw [if_neg h0] at hin
    rcases List.mem_map.mp hin with ⟨c', _, heq⟩
    have h1 : c' = c := congrArg Prod.fst heq
    have h2 := congrArg Prod.snd heq
    subst h1
    exact ⟨h2.symm, hcond', Nat.pos_of_ne_zero h0⟩

/-- Shared coverage fact: a currency surviving computeDailyRatePlans has one
candidate list per night and each of them is nonempty. -/
theorem computeDailyRatePlans_coverage {arrival departure : Int}
    {guests : List Guest} {hc : String} {plans : List RatePlan}
    {c : String} {days : List (List DayEntry)}
    (hmem : (c, days) ∈ computeDailyRatePlans arrival departure guests hc plans) :
    days.length = (arrival - departure).natAbs ∧ ∀ dl ∈ days, dl ≠ [] := by
  obtain ⟨hdays, hcond, _⟩ := mem_computeDailyRatePlans hmem
  have hlen : days.length = (arrival - departure).natAbs := by
    rw [hdays]; simp
  refine ⟨hlen, ?_⟩
  have hle : days.length ≤ (days.filter (fun dl => ! dl.isEmpty)).length := by
    omega
  intro dl hdl
  have := filter_le_length_all _ days hle dl hdl
  simpa using this

/-- C2: the coverage invariant of computeDailyRatePlans.  Every currency
present in the result has exactly lengthOfStay candidate lists, one per
night index, each holding at least one entry; consequently a currency with
an uncovered night can never be present in the result. -/
theorem c2_coverage_invariant (arrival departure : Int) (guests : List Guest)
    (hc : String) (plans : List RatePlan) (c : String)
    (days : List (List DayEntry))
    (hmem : (c, days) ∈ computeDailyRatePlans arrival departure guests hc plans) :
    days.length = (arrival - departure).natAbs ∧ ∀ dl ∈ days, dl ≠ [] :=
  computeDailyRatePlans_coverage hmem

/-- Concrete one-night, zero-guest scenario used by the C2 witness. -/
def exPlanC2 : RatePlan :=
  { id := "rp", price := 10 }

/-- The single matrix entry of the C2 witness scenario. -/
def exDaysC2 : List (List DayEntry) :=
  [[{ date := 0, ratePlan := exPlanC2, total := 0, guestPrices := [] }]]

/-- C2 witness: a one-night stay with a single plan produces one covered
night for its currency. -/
theorem c2_coverage_invariant_witness :
    (("EUR", exDaysC2) ∈ computeDailyRatePlans 0 1 [] "EUR" [exPlanC2]) ∧
    (exDaysC2.length = ((0 : Int) - 1).natAbs ∧ ∀ dl ∈ exDaysC2, dl ≠ []) :=
  ⟨by decide,
    c2_coverage_invariant 0 1 [] "EUR" [exPlanC2] "EUR" exDaysC2 (by decide)⟩

end WT

namespace WT

/-- The per-night minimum entry total, the quantity the specification says
getBestPrice sums (zero for an impossible empty night). -/
def nightMin (d : List DayEntry) : ℚ :=
  match d with
  | [] => 0
  | e :: r => r.foldl (fun acc x => min acc x.total) e.total

theorem dailyBestReduce_go (l : List DayEntry) :
    ∀ a : DayEntry,
      ∃ b, List.foldl (fun agg curr =>
          match agg with
          | none => some curr
          | some x => if 0 ≤ x.total - curr.total then some curr else some x)
        (some a) l = some b ∧ b ∈ a :: l ∧
        b.total = l.foldl (fun acc x => min acc x.total) a.total := by
  induction l with
  | nil => exact fun a => ⟨a, rfl, by simp, rfl⟩
  | cons x t ih =>
    intro a
    by_cases hc : 0 ≤ a.total - x.total
    · have hxa : x.total ≤ a.total := sub_nonneg.mp hc
      obtain ⟨b, h1, h2, h3⟩ := ih x
      refine ⟨b, by simpa [hxa] using h1, List.mem_cons_of_mem _ h2, ?_⟩
      rw [List.foldl_cons]
      rw [min_eq_right hxa]
      exact h3
    · have hnot : ¬ (x.total ≤ a.total) := fun hle => hc (sub_nonneg.mpr hle)
      have hax : a.total ≤ x.total := le_of_not_le hnot
      obtain ⟨b, h1, h2, h3⟩ := ih a
      refine ⟨b, by simpa [hnot] using h1, ?_, ?_⟩
      · rcases List.mem_cons.mp h2 with rfl | h2'
        · exact List.mem_cons_self _ _
        · exact List.mem_cons_of_mem _ (List.mem_cons_of_mem _ h2')
      · rw [List.foldl_cons]
        rw [min_eq_left hax]
        exact h3

theorem dailyBestReduce_spec (d : List DayEntry) (hd : d ≠ []) :
    ∃ b, dailyBestReduce d = some b ∧ b ∈ d ∧ b.total = nightMin d := by
  match d, hd with
  | e :: r, _ =>
    obtain ⟨b, h1, h2, h3⟩ := dailyBestReduce_go r e
    exact ⟨b, by simpa [dailyBestReduce] using h1, h2, by simpa [nightMin] using h3⟩

/-- The matrix day lists carry increasing dates starting at the base day. -/
def Aligned : List (List DayEntry) → Int → Prop
  | [], _ => True
  | dl :: rest, base => (∀ e ∈ dl, e.date = base) ∧ Aligned rest (base + 1)

theorem dayCandidates_date {guests : List Guest} {L : Nat} {hc : String}
    {plans : List RatePlan} {date : Int} {c : String} :
    ∀ e ∈ dayCandidates guests L hc plans date c, e.date = date := by
  intro e he
  rcases List.mem_filterMap.mp he with ⟨rp, _, hrp⟩
  by_cases hcond : ((effCurrency rp hc == c) && dateOkForTravel rp date) = true
  · rw [if_pos hcond] at hrp
    cases hrp
    rfl
  · rw [if_neg hcond] at hrp
    cases hrp

theorem aligned_range' (f : Nat → List DayEntry) (start : Int)
    (hf : ∀ i, ∀ e ∈ f i, e.date = start + (i : Int)) :
    ∀ (n s : Nat), Aligned ((List.range' s n).map f) (start + (s : Int)) := by
  intro n
  induction n with
  | zero => intro s; simp [List.range', Aligned]
  | succ n ih =>
    intro s
    rw [show List.range' s (n + 1) = s :: List.range' (s + 1) n from rfl,
      List.map_cons]
    refine ⟨hf s, ?_⟩
    have := ih (s + 1)
    have harith : start + ((s : Int) + 1) = (start + (s : Int)) + 1 := by ring
    rw [show ((s + 1 : Nat) : Int) = (s : Int) + 1 by push_cast; ring, harith] at this
    exact this

theorem aligned_matrix_days {arrival : Int} {LOS : Nat} {guests : List Guest}
    {hc : String} {plans : List RatePlan} {c : String}
    {days : List (List DayEntry)}
    (hdays : days = (List.range LOS).map
      (fun (i : Nat) => dayCandidates guests LOS hc plans (arrival + (i : Int)) c)) :
    Aligned days arrival := by
  subst hdays
  rw [List.range_eq_range']
  have := aligned_range'
    (fun i => dayCandidates guests LOS hc plans (arrival + (i : Int)) c) arrival
    (fun i e he => dayCandidates_date e he) LOS 0
  simpa using this

theorem upsertDate_append {acc : List (Int × DayEntry)} {key : Int}
    {v : DayEntry} (h : ∀ p ∈ acc, p.1 ≠ key) :
    upsertDate acc key v = acc ++ [(key, v)] := by
  unfold upsertDate
  have hany : ¬ (acc.any (fun p => p.1 == key) = true) := by
    simp only [List.any_eq_true, beq_iff_eq, not_exists]
    intro p
    intro hcontra
    exact h p hcontra.1 hcontra.2
  rw [if_neg hany]

theorem dailyBests_totals :
    ∀ (days : List (List DayEntry)) (base : Int) (acc : List (Int × DayEntry)),
      Aligned days base → (∀ dl ∈ days, dl ≠ []) → (∀ p ∈ acc, p.1 < base) →
      (days.foldl (fun acc d =>
        match d with
        | [] => acc
        | e :: _ =>
          match dailyBestReduce d with
          | some b => upsertDate acc e.date b
          | none => acc) acc).map (fun kb => kb.2.total)
      = acc.map (fun kb => kb.2.total) ++ days.map nightMin := by
  intro days
  induction days with
  | nil =>
    intro base acc _ _ _
    simp
  | cons d rest ih =>
    intro base acc halign hne hacc
    obtain ⟨hd, hrest⟩ := halign
    have hdne : d ≠ [] := hne d (by simp)
    obtain ⟨e, r, rfl⟩ : ∃ e r, d = e :: r := by
      cases d with
      | nil => exact absurd rfl hdne
      | cons e r => exact ⟨e, r, rfl⟩
    obtain ⟨b, hb1, _, hb3⟩ := dailyBestReduce_spec (e :: r) (by simp)
    rw [List.foldl_cons]
    simp only [hb1]
    have hedate : e.date = base := hd e (by simp)
    have hupsert : upsertDate acc e.date b = acc ++ [(e.date, b)] :=
      upsertDate_append (fun p hp => by
        have := hacc p hp
        rw [hedate]
        exact ne_of_lt this)
    rw [hupsert]
    have ihres := ih (base + 1) (acc ++ [(e.date, b)]) hrest
      (fun dl hdl => hne dl (List.mem_cons_of_mem _ hdl))
      (fun p hp => by
        rcases List.mem_append.mp hp with hin | hin
        · have := hacc p hin
          omega
        · simp at hin
          subst hin
          simp only
          rw [hedate]
          omega)
    rw [ihres]
    simp [hb3]

theorem dailyBestsOf_totals {days : List (List DayEntry)} {base : Int}
    (halign : Aligned days base) (hne : ∀ dl ∈ days, dl ≠ []) :
    (dailyBestsOf days).map (fun kb => kb.2.total) = days.map nightMin := by
  have := dailyBests_totals days base [] halign hne (by simp)
  simpa [dailyBestsOf] using this

theorem foldl_add_shift (l : List ℚ) : ∀ a : ℚ, l.foldl (· + ·) a = a + l.sum := by
  induction l with
  | nil => intro a; simp
  | cons x t ih => intro a; simp [List.foldl_cons, ih, add_assoc]

theorem ratSum_eq_sum (l : List ℚ) : ratSum l = l.sum := by
  simp [ratSum, foldl_add_shift]

end WT

namespace WT

/-- C1: for every stay and every currency present in the computeDailyRatePlans
matrix, getBestPrice reports for that currency a price whose total is the sum,
over the nights of the stay, of the least per-night entry total, each night
minimized independently of the others (so different nights may come from
different rate plans). -/
theorem c1_best_price_totals (pc : PriceComputer)
    (bookingDate arrivalDate departureDate : Int) (guests : List Guest)
    (currency roomTypeId : Option String) (rt : RoomType)
    (hrt : rt ∈ filteredRoomTypes pc roomTypeId)
    (hplans : selectApplicableRatePlans rt.id pc.ratePlans bookingDate
      arrivalDate departureDate pc.defaultCurrency currency ≠ [])
    (c : String) (days : List (List DayEntry))
    (hmem : (c, days) ∈ computeDailyRatePlans arrivalDate departureDate guests
      pc.defaultCurrency (selectApplicableRatePlans rt.id pc.ratePlans
        bookingDate arrivalDate departureDate pc.defaultCurrency currency)) :
    pc.bestPriceForRoom bookingDate arrivalDate departureDate guests currency rt
      ∈ pc.getBestPrice bookingDate arrivalDate departureDate guests currency
        roomTypeId ∧
    ∃ p ∈ (pc.bestPriceForRoom bookingDate arrivalDate departureDate guests
        currency rt).prices, p.currency = c ∧ p.total = (days.map nightMin).sum := by
  constructor
  · exact List.mem_map_of_mem _ hrt
  · have hne : (selectApplicableRatePlans rt.id pc.ratePlans bookingDate
        arrivalDate departureDate pc.defaultCurrency currency).isEmpty = false := by
      cases h : (selectApplicableRatePlans rt.id pc.ratePlans bookingDate
        arrivalDate departureDate pc.defaultCurrency currency).isEmpty
      · rfl
      · exact absurd (List.isEmpty_iff.mp h) hplans
    simp only [PriceComputer.bestPriceForRoom, hne, Bool.false_eq_true, if_false]
    have hcov := computeDailyRatePlans_coverage hmem
    have halign : Aligned days arrivalDate :=
      aligned_matrix_days (mem_computeDailyRatePlans hmem).1
    refine ⟨_, List.mem_map_of_mem _ hmem, rfl, ?_⟩
    simp only [bestPriceStrategy]
    rw [dailyBestsOf_totals halign hcov.2, ratSum_eq_sum]

/-- Concrete rate plan of the C1 witness scenario. -/
def exPlanC1 : RatePlan :=
  { id := "rp", price := 100, currency := some "CZK", roomTypeIds := ["rt"] }

/-- The price computer of the C1 witness scenario. -/
def exPcC1 : PriceComputer :=
  { roomTypes := [{ id := "rt" }], ratePlans := [exPlanC1],
    defaultCurrency := "EUR" }

/-- The one matrix entry of the C1 witness scenario. -/
def exDaysC1 : List (List DayEntry) :=
  [[{ date := 0, ratePlan := exPlanC1, total := 100,
      guestPrices := [{ guestId := "g", ratePlanId := "rp", currency := "CZK",
                        basePrice := 100, resultingPrice := 100 }] }]]

/-- C1 witness: a one-night stay priced by a single CZK plan at 100 yields a
best price entry for CZK totalling the per-night minimum sum. -/
theorem c1_best_price_totals_witness :
    (("CZK", exDaysC1) ∈ computeDailyRatePlans 0 1 [{ id := "g", age := 30 }]
      "EUR" (selectApplicableRatePlans "rt" exPcC1.ratePlans 0 0 1 "EUR" none)) ∧
    (exPcC1.bestPriceForRoom 0 0 1 [{ id := "g", age := 30 }] none { id := "rt" }
        ∈ exPcC1.getBestPrice 0 0 1 [{ id := "g", age := 30 }] none none ∧
      ∃ p ∈ (exPcC1.bestPriceForRoom 0 0 1 [{ id := "g", age := 30 }] none
          { id := "rt" }).prices,
        p.currency = "CZK" ∧ p.total = (exDaysC1.map nightMin).sum) := by
  have hmem : ("CZK", exDaysC1) ∈ computeDailyRatePlans 0 1
      [{ id := "g", age := 30 }] "EUR"
      (selectApplicableRatePlans "rt" exPcC1.ratePlans 0 0 1 "EUR" none) := by
    simp only [exPcC1, exPlanC1, exDaysC1, selectApplicableRatePlans,
      computeDailyRatePlans, dayCandidates, computeDailyPrice,
      selectApplicableModifiers, samGo, effCurrency, dateOkForTravel,
      firstOccur, ratSum, selectBestGuestModifier, selectBestGuestModifierFull,
      sbgmGo, isAgeMod, condMaxAge, genericPred, List.enumFrom, List.filterMap,
      List.filter, List.map, List.foldl, List.contains, List.elem,
      List.isEmpty, List.any, List.length, List.range_succ, List.range_zero,
      String.reduceEq]
    norm_num
  refine ⟨hmem, c1_best_price_totals exPcC1 0 0 1 [{ id := "g", age := 30 }]
    none none { id := "rt" } (by decide) ?_ "CZK" exDaysC1 hmem⟩
  decide

end WT

namespace WT

theorem pairwise_getLast?_min :
    ∀ (l : List SinglePriceEntry), List.Pairwise totalGe l →
      ∀ y, l.getLast? = some y → y ∈ l ∧ ∀ x ∈ l, y.total ≤ x.total := by
  intro l
  induction l with
  | nil =>
    intro _ y hy
    cases hy
  | cons a t ih =>
    intro hp y hy
    cases t with
    | nil =>
      have hya : y = a := by
        simpa using hy.symm
      subst hya
      refine ⟨List.mem_cons_self _ _, ?_⟩
      intro x hx
      have : x = y := by simpa using hx
      rw [this]
    | cons b t2 =>
      rw [List.getLast?_cons_cons] at hy
      have hp' := List.pairwise_cons.mp hp
      obtain ⟨hmem, hmin⟩ := ih hp'.2 y hy
      refine ⟨List.mem_cons_of_mem _ hmem, ?_⟩
      intro x hx
      rcases List.mem_cons.mp hx with rfl | hx'
      · exact hp'.1 y hmem
      · exact hmin x hx'

theorem insertionSortPop_min (qs : List SinglePriceEntry)
    (y : SinglePriceEntry)
    (hy : (List.insertionSort totalGe qs).getLast? = some y) :
    y ∈ qs ∧ ∀ x ∈ qs, y.total ≤ x.total := by
  have hperm := List.perm_insertionSort totalGe qs
  have hs : List.Pairwise totalGe (List.insertionSort totalGe qs) :=
    List.sorted_insertionSort totalGe qs
  obtain ⟨hmem, hmin⟩ := pairwise_getLast?_min _ hs y hy
  exact ⟨hperm.mem_iff.mp hmem, fun x hx => hmin x (hperm.mem_iff.mpr hx)⟩

/-- C3: over any currency of the day matrix, the single-rate-plan strategies
consider only rate plans whose day entries cover every night
(count equal to lengthOfStay), getBestPriceWithSingleRatePlan returns the
qualifying plan with the least summed total (with a full per-night
drilldown), and getPossiblePricesWithSingleRatePlan lists only
full-coverage plans. -/
theorem c3_single_rate_plan_lowest (pc : PriceComputer)
    (bookingDate arrivalDate departureDate : Int) (guests : List Guest)
    (currency roomTypeId : Option String) (rt : RoomType)
    (hrt : rt ∈ filteredRoomTypes pc roomTypeId)
    (hplans : selectApplicableRatePlans rt.id pc.ratePlans bookingDate
      arrivalDate departureDate pc.defaultCurrency currency ≠ [])
    (c : String) (days : List (List DayEntry))
    (hmem : (c, days) ∈ computeDailyRatePlans arrivalDate departureDate guests
      pc.defaultCurrency (selectApplicableRatePlans rt.id pc.ratePlans
        bookingDate arrivalDate departureDate pc.defaultCurrency currency)) :
    (pc.singleBestForRoom bookingDate arrivalDate departureDate guests currency rt
        ∈ pc.getBestPriceWithSingleRatePlan bookingDate arrivalDate departureDate
          guests currency roomTypeId ∧
      singleBestForCurrency (arrivalDate - departureDate).natAbs (c, days)
        ∈ (pc.singleBestForRoom bookingDate arrivalDate departureDate guests
            currency rt).prices) ∧
    (∀ g ∈ ((ratePlanOccurrences days).map Prod.snd).filter
        (fun g => g.dailyPrices.length == (arrivalDate - departureDate).natAbs),
      g.dailyPrices.length = (arrivalDate - departureDate).natAbs) ∧
    (∀ t, (singleBestForCurrency (arrivalDate - departureDate).natAbs
        (c, days)).total = some t →
      (∃ g ∈ ((ratePlanOccurrences days).map Prod.snd).filter
          (fun g => g.dailyPrices.length == (arrivalDate - departureDate).natAbs),
        (mkSinglePriceEntry g).total = t) ∧
      ∀ g ∈ ((ratePlanOccurrences days).map Prod.snd).filter
          (fun g => g.dailyPrices.length == (arrivalDate - departureDate).natAbs),
        t ≤ (mkSinglePriceEntry g).total) ∧
    (∀ dd, (singleBestForCurrency (arrivalDate - departureDate).natAbs
        (c, days)).drilldown = some dd →
      dd.length = (arrivalDate - departureDate).natAbs) ∧
    (pc.possibleForRoom bookingDate arrivalDate departureDate guests currency rt
        ∈ pc.getPossiblePricesWithSingleRatePlan bookingDate arrivalDate
          departureDate guests currency roomTypeId ∧
      possibleForCurrency (arrivalDate - departureDate).natAbs (c, days)
        ∈ (pc.possibleForRoom bookingDate arrivalDate departureDate guests
            currency rt).prices ∧
      ∀ x ∈ (possibleForCurrency (arrivalDate - departureDate).natAbs
          (c, days)).ratePlans,
        x.drilldown.length = (arrivalDate - departureDate).natAbs) := by
  have hne : (selectApplicableRatePlans rt.id pc.ratePlans bookingDate
      arrivalDate departureDate pc.defaultCurrency currency).isEmpty = false := by
    cases h : (selectApplicableRatePlans rt.id pc.ratePlans bookingDate
      arrivalDate departureDate pc.defaultCurrency currency).isEmpty
    · rfl
    · exact absurd (List.isEmpty_iff.mp h) hplans
  have hqlen : ∀ g ∈ ((ratePlanOccurrences days).map Prod.snd).filter
      (fun g => g.dailyPrices.length == (arrivalDate - departureDate).natAbs),
      g.dailyPrices.length = (arrivalDate - departureDate).natAbs := by
    intro g hg
    have := (List.mem_filter.mp hg).2
    simpa using this
  refine ⟨⟨List.mem_map_of_mem _ hrt, ?_⟩, hqlen, ?_, ?_, ⟨List.mem_map_of_mem _ hrt, ?_, ?_⟩⟩
  · simp only [PriceComputer.singleBestForRoom, hne, Bool.false_eq_true, if_false]
    exact List.mem_map_of_mem _ hmem
  · intro t ht
    simp only [singleBestForCurrency] at ht
    cases hlast : (List.insertionSort totalGe
        ((((ratePlanOccurrences days).map Prod.snd).filter
          (fun g => g.dailyPrices.length == (arrivalDate - departureDate).natAbs)).map
            mkSinglePriceEntry)).getLast? with
    | none =>
      rw [hlast] at ht
      cases ht
    | some best =>
      rw [hlast] at ht
      have hbt : best.total = t := by
        simpa using ht
      obtain ⟨hmemb, hminb⟩ := insertionSortPop_min _ best hlast
      rcases List.mem_map.mp hmemb with ⟨g, hg, hgb⟩
      constructor
      · exact ⟨g, hg, by rw [hgb, hbt]⟩
      · intro g2 hg2
        rw [← hbt]
        exact hminb _ (List.mem_map_of_mem _ hg2)
  · intro dd hdd
    simp only [singleBestForCurrency] at hdd
    cases hlast : (List.insertionSort totalGe
        ((((ratePlanOccurrences days).map Prod.snd).filter
          (fun g => g.dailyPrices.length == (arrivalDate - departureDate).natAbs)).map
            mkSinglePriceEntry)).getLast? with
    | none =>
      rw [hlast] at hdd
      cases hdd
    | some best =>
      rw [hlast] at hdd
      have hbd : best.drilldown = dd := by
        simpa using hdd
      obtain ⟨hmemb, _⟩ := insertionSortPop_min _ best hlast
      rcases List.mem_map.mp hmemb with ⟨g, hg, hgb⟩
      rw [← hbd, ← hgb]
      simp only [mkSinglePriceEntry, List.length_map]
      exact hqlen g hg
  · simp only [PriceComputer.possibleForRoom, hne, Bool.false_eq_true, if_false]
    exact List.mem_map_of_mem _ hmem
  · intro x hx
    simp only [possibleForCurrency] at hx
    rcases List.mem_map.mp hx with ⟨g, hg, hgx⟩
    rw [← hgx]
    simp only [mkSinglePriceEntry, List.length_map]
    exact hqlen g hg

/-- C10 (shared with the C3 grouping): when no rate plan of a currency covers
every night, the strategy still emits an entry carrying only the currency
code: ratePlan, total and drilldown are all absent. -/
theorem singleBestForCurrency_empty {LOS : Nat}
    {p : String × List (List DayEntry)}
    (hq : ((ratePlanOccurrences p.2).map Prod.snd).filter
      (fun g => g.dailyPrices.length == LOS) = []) :
    singleBestForCurrency LOS p
      = { currency := p.1, ratePlan := none, total := none, drilldown := none } := by
  simp [singleBestForCurrency, hq, List.insertionSort]

/-- C10: a currency present in the matrix but without any single rate plan
covering every night still gets a price entry from
getBestPriceWithSingleRatePlan, holding only the currency code (no
ratePlan, total or drilldown fields), instead of being omitted or raising. -/
theorem c10_currency_only_entry (pc : PriceComputer)
    (bookingDate arrivalDate departureDate : Int) (guests : List Guest)
    (currency roomTypeId : Option String) (rt : RoomType)
    (hrt : rt ∈ filteredRoomTypes pc roomTypeId)
    (hplans : selectApplicableRatePlans rt.id pc.ratePlans bookingDate
      arrivalDate departureDate pc.defaultCurrency currency ≠ [])
    (c : String) (days : List (List DayEntry))
    (hmem : (c, days) ∈ computeDailyRatePlans arrivalDate departureDate guests
      pc.defaultCurrency (selectApplicableRatePlans rt.id pc.ratePlans
        bookingDate arrivalDate departureDate pc.defaultCurrency currency))
    (hq : ((ratePlanOccurrences days).map Prod.snd).filter
      (fun g => g.dailyPrices.length == (arrivalDate - departureDate).natAbs) = []) :
    pc.singleBestForRoom bookingDate arrivalDate departureDate guests currency rt
      ∈ pc.getBestPriceWithSingleRatePlan bookingDate arrivalDate departureDate
        guests currency roomTypeId ∧
    ({ currency := c, ratePlan := none, total := none, drilldown := none } :
        SinglePrice)
      ∈ (pc.singleBestForRoom bookingDate arrivalDate departureDate guests
          currency rt).prices := by
  have hne : (selectApplicableRatePlans rt.id pc.ratePlans bookingDate
      arrivalDate departureDate pc.defaultCurrency currency).isEmpty = false := by
    cases h : (selectApplicableRatePlans rt.id pc.ratePlans bookingDate
      arrivalDate departureDate pc.defaultCurrency currency).isEmpty
    · rfl
    · exact absurd (List.isEmpty_iff.mp h) hplans
  refine ⟨List.mem_map_of_mem _ hrt, ?_⟩
  simp only [PriceComputer.singleBestForRoom, hne, Bool.false_eq_true, if_false]
  have := List.mem_map_of_mem
    (singleBestForCurrency (arrivalDate - departureDate).natAbs) hmem
  rwa [singleBestForCurrency_empty hq] at this

end WT

namespace WT

/-- Concrete plan of the C3 witness scenario. -/
def exPlanC3 : RatePlan :=
  { id := "rp", price := 10, currency := some "EUR", roomTypeIds := ["rt"] }

/-- The price computer of the C3 witness scenario. -/
def exPcC3 : PriceComputer :=
  { roomTypes := [{ id := "rt" }], ratePlans := [exPlanC3],
    defaultCurrency := "EUR" }

/-- The day matrix bucket of the C3 witness scenario. -/
def exDaysC3 : List (List DayEntry) :=
  [[{ date := 0, ratePlan := exPlanC3, total := 0, guestPrices := [] }]]

/-- C3 witness: for a one-night stay with a single qualifying plan, the
grouping keeps only full-coverage plans. -/
theorem c3_single_rate_plan_lowest_witness :
    (("EUR", exDaysC3) ∈ computeDailyRatePlans 0 1 [] "EUR"
      (selectApplicableRatePlans "rt" exPcC3.ratePlans 0 0 1 "EUR" none)) ∧
    (∀ g ∈ ((ratePlanOccurrences exDaysC3).map Prod.snd).filter
        (fun g => g.dailyPrices.length == ((0 : Int) - 1).natAbs),
      g.dailyPrices.length = ((0 : Int) - 1).natAbs) :=
  ⟨by decide,
    (c3_single_rate_plan_lowest exPcC3 0 0 1 [] none none { id := "rt" }
      (by decide) (by decide) "EUR" exDaysC3 (by decide)).2.1⟩

/-- Plan covering only the first night (C10 witness). -/
def exPlanC10a : RatePlan :=
  { id := "a", price := 10, currency := some "EUR", roomTypeIds := ["rt"],
    availableForTravel := some { fromD := 0, toD := 0 } }

/-- Plan covering only the second night (C10 witness). -/
def exPlanC10b : RatePlan :=
  { id := "b", price := 20, currency := some "EUR", roomTypeIds := ["rt"],
    availableForTravel := some { fromD := 1, toD := 1 } }

/-- The price computer of the C10 witness scenario. -/
def exPcC10 : PriceComputer :=
  { roomTypes := [{ id := "rt" }], ratePlans := [exPlanC10a, exPlanC10b],
    defaultCurrency := "EUR" }

/-- The day matrix bucket of the C10 witness scenario: each night is covered,
but by a different plan. -/
def exDaysC10 : List (List DayEntry) :=
  [[{ date := 0, ratePlan := exPlanC10a, total := 0, guestPrices := [] }],
   [{ date := 1, ratePlan := exPlanC10b, total := 0, guestPrices := [] }]]

/-- C10 witness: two plans each covering one of two nights leave the EUR
bucket with no full-coverage plan, and the single-rate-plan strategy still
emits the currency-only entry. -/
theorem c10_currency_only_entry_witness :
    (("EUR", exDaysC10) ∈ computeDailyRatePlans 0 2 [] "EUR"
      (selectApplicableRatePlans "rt" exPcC10.ratePlans 0 0 2 "EUR" none)) ∧
    (((ratePlanOccurrences exDaysC10).map Prod.snd).filter
      (fun g => g.dailyPrices.length == ((0 : Int) - 2).natAbs) = []) ∧
    ({ currency := "EUR", ratePlan := none, total := none, drilldown := none } :
        SinglePrice)
      ∈ (exPcC10.singleBestForRoom 0 0 2 [] none { id := "rt" }).prices :=
  ⟨by decide, by decide,
    (c10_currency_only_entry exPcC10 0 0 2 [] none none { id := "rt" }
      (by decide) (by decide) "EUR" exDaysC10 (by decide) (by decide)).2⟩

end WT

namespace WT

/-- C4 counterexample: with guest age 10, an absolute -100 modifier at
maxAge 50 listed before an absolute -1 modifier at maxAge 20, the code keeps
the maxAge 50 modifier, although the qualifying modifier with the smallest
maxAge is the one at 20. -/
theorem c4_counterexample :
    selectBestGuestModifier 100
      [{ mtype := some MType.absolute, adjustment := -100,
         conditions := some { maxAge := some 50 } },
       { mtype := some MType.absolute, adjustment := -1,
         conditions := some { maxAge := some 20 } }] 10
      = some { mtype := some MType.absolute, adjustment := -100,
               conditions := some { maxAge := some 50 }, change := some (-100) } ∧
    (10 : Int) ≤ 20 ∧ (20 : Int) < 50 := by
  decide

theorem sbgmGo_mono (bp : ℚ) (age : Int) :
    ∀ (l : List (Nat × Modifier)) (pb : Nat × Modifier) (log : List (Nat × ℚ)),
      ∃ qb, (sbgmGo bp age l (some pb) log).1 = some qb ∧
        (condMaxAge qb.2).getD 0 ≤ (condMaxAge pb.2).getD 0 ∧
        qb.2.change.getD 0 ≤ pb.2.change.getD 0 ∧
        (age ≤ (condMaxAge pb.2).getD 0 → age ≤ (condMaxAge qb.2).getD 0) ∧
        (pb.2.change = some (computeChange bp pb.2) →
          qb.2.change = some (computeChange bp qb.2)) ∧
        ((isAgeMod pb.2 ∧ ∀ im ∈ l, isAgeMod im.2) → isAgeMod qb.2) := by
  intro l
  induction l with
  | nil =>
    intro pb log
    exact ⟨pb, rfl, le_refl _, le_refl _, fun h => h, fun h => h, fun h => h.1⟩
  | cons hd rest ih =>
    obtain ⟨i, cur⟩ := hd
    intro pb log
    by_cases h1 : age ≤ (condMaxAge cur).getD 0
    · by_cases h2 : (condMaxAge cur).getD 0 ≤ (condMaxAge pb.2).getD 0
      · by_cases h3 : computeChange bp cur ≤ pb.2.change.getD 0
        · have hstep : sbgmGo bp age ((i, cur) :: rest) (some pb) log =
              sbgmGo bp age rest
                (some (i, { cur with change := some (computeChange bp cur) }))
                (log ++ [(i, computeChange bp cur)]) := by
            simp [sbgmGo, h1, h2, h3]
          obtain ⟨qb, hq1, hq2, hq3, hq4, hq5, hq6⟩ :=
            ih (i, { cur with change := some (computeChange bp cur) })
              (log ++ [(i, computeChange bp cur)])
          refine ⟨qb, by rw [hstep]; exact hq1, ?_, ?_, ?_, ?_, ?_⟩
          · exact le_trans hq2 h2
          · exact le_trans hq3 h3
          · exact fun _ => hq4 h1
          · exact fun _ => hq5 rfl
          · intro h
            refine hq6 ⟨?_, fun im him => h.2 im (List.mem_cons_of_mem _ him)⟩
            have : isAgeMod cur := h.2 (i, cur) (List.mem_cons_self _ _)
            exact this
        · have hstep : sbgmGo bp age ((i, cur) :: rest) (some pb) log =
              sbgmGo bp age rest (some pb) log := by
            simp [sbgmGo, h1, h2, h3]
          obtain ⟨qb, hq1, hq2, hq3, hq4, hq5, hq6⟩ := ih pb log
          exact ⟨qb, by rw [hstep]; exact hq1, hq2, hq3, hq4, hq5,
            fun h => hq6 ⟨h.1, fun im him => h.2 im (List.mem_cons_of_mem _ him)⟩⟩
      · have hstep : sbgmGo bp age ((i, cur) :: rest) (some pb) log =
            sbgmGo bp age rest (some pb) log := by
          simp [sbgmGo, h1, h2]
        obtain ⟨qb, hq1, hq2, hq3, hq4, hq5, hq6⟩ := ih pb log
        exact ⟨qb, by rw [hstep]; exact hq1, hq2, hq3, hq4, hq5,
          fun h => hq6 ⟨h.1, fun im him => h.2 im (List.mem_cons_of_mem _ him)⟩⟩
    · have hstep : sbgmGo bp age ((i, cur) :: rest) (some pb) log =
          sbgmGo bp age rest (some pb) log := by
        simp [sbgmGo, h1]
      obtain ⟨qb, hq1, hq2, hq3, hq4, hq5, hq6⟩ := ih pb log
      exact ⟨qb, by rw [hstep]; exact hq1, hq2, hq3, hq4, hq5,
        fun h => hq6 ⟨h.1, fun im him => h.2 im (List.mem_cons_of_mem _ him)⟩⟩

end WT

namespace WT

theorem sbgmGo_first_qualifying (bp : ℚ) (age : Int) :
    ∀ (l0 : List (Nat × Modifier)) (i : Nat) (m1 : Modifier)
      (l1 : List (Nat × Modifier)) (log : List (Nat × ℚ)),
      (∀ im ∈ l0, ¬ age ≤ (condMaxAge im.2).getD 0) →
      age ≤ (condMaxAge m1).getD 0 →
      ∃ qb, (sbgmGo bp age (l0 ++ (i, m1) :: l1) none log).1 = some qb ∧
        (condMaxAge qb.2).getD 0 ≤ (condMaxAge m1).getD 0 ∧
        qb.2.change.getD 0 ≤ computeChange bp m1 ∧
        age ≤ (condMaxAge qb.2).getD 0 ∧
        qb.2.change = some (computeChange bp qb.2) ∧
        ((isAgeMod m1 ∧ ∀ im ∈ l1, isAgeMod im.2) → isAgeMod qb.2) := by
  intro l0
  induction l0 with
  | nil =>
    intro i m1 l1 log _ hm1
    have hstep : sbgmGo bp age ([] ++ (i, m1) :: l1) none log =
        sbgmGo bp age l1
          (some (i, { m1 with change := some (computeChange bp m1) }))
          (log ++ [(i, computeChange bp m1)]) := by
      simp [sbgmGo, hm1]
    obtain ⟨qb, hq1, hq2, hq3, hq4, hq5, hq6⟩ :=
      sbgmGo_mono bp age l1 (i, { m1 with change := some (computeChange bp m1) })
        (log ++ [(i, computeChange bp m1)])
    exact ⟨qb, by rw [hstep]; exact hq1, hq2, hq3, hq4 hm1, hq5 rfl,
      fun h => hq6 ⟨h.1, h.2⟩⟩
  | cons hd rest ih =>
    intro i m1 l1 log hl0 hm1
    obtain ⟨j, m0⟩ := hd
    have hskip : ¬ age ≤ (condMaxAge m0).getD 0 :=
      hl0 (j, m0) (List.mem_cons_self _ _)
    have hstep : sbgmGo bp age (((j, m0) :: rest) ++ (i, m1) :: l1) none log =
        sbgmGo bp age (rest ++ (i, m1) :: l1) none log := by
      simp [sbgmGo, hskip]
    obtain ⟨qb, hq1, hrest⟩ := ih i m1 l1 log
      (fun im him => hl0 im (List.mem_cons_of_mem _ him)) hm1
    exact ⟨qb, by rw [hstep]; exact hq1, hrest⟩

end WT

namespace WT

theorem sbgmGo_equal_maxAge (bp : ℚ) (age : Int) (A : Int) (hA : age ≤ A) :
    ∀ (l : List (Nat × Modifier)) (pb : Nat × Modifier) (log : List (Nat × ℚ)),
      (condMaxAge pb.2).getD 0 = A →
      (∀ im ∈ l, (condMaxAge im.2).getD 0 = A) →
      ∃ qb, (sbgmGo bp age l (some pb) log).1 = some qb ∧
        qb.2.change.getD 0 ≤ pb.2.change.getD 0 ∧
        ∀ im ∈ l, qb.2.change.getD 0 ≤ computeChange bp im.2 := by
  intro l
  induction l with
  | nil =>
    intro pb log _ _
    exact ⟨pb, rfl, le_refl _, by simp⟩
  | cons hd rest ih =>
    obtain ⟨i, cur⟩ := hd
    intro pb log hpb hl
    have hcur : (condMaxAge cur).getD 0 = A := hl (i, cur) (List.mem_cons_self _ _)
    have h1 : age ≤ (condMaxAge cur).getD 0 := by rw [hcur]; exact hA
    have h2 : (condMaxAge cur).getD 0 ≤ (condMaxAge pb.2).getD 0 := by
      rw [hcur, hpb]
    by_cases h3 : computeChange bp cur ≤ pb.2.change.getD 0
    · have hstep : sbgmGo bp age ((i, cur) :: rest) (some pb) log =
          sbgmGo bp age rest
            (some (i, { cur with change := some (computeChange bp cur) }))
            (log ++ [(i, computeChange bp cur)]) := by
        simp [sbgmGo, h1, h2, h3]
      obtain ⟨qb, hq1, hq2, hq3⟩ :=
        ih (i, { cur with change := some (computeChange bp cur) })
          (log ++ [(i, computeChange bp cur)]) hcur
          (fun im him => hl im (List.mem_cons_of_mem _ him))
      refine ⟨qb, by rw [hstep]; exact hq1, le_trans hq2 h3, ?_⟩
      intro im him
      rcases List.mem_cons.mp him with rfl | him'
      · exact hq2
      · exact hq3 im him'
    · have hstep : sbgmGo bp age ((i, cur) :: rest) (some pb) log =
          sbgmGo bp age rest (some pb) log := by
        simp [sbgmGo, h1, h2, h3]
      obtain ⟨qb, hq1, hq2, hq3⟩ := ih pb log hpb
        (fun im him => hl im (List.mem_cons_of_mem _ him))
      refine ⟨qb, by rw [hstep]; exact hq1, hq2, ?_⟩
      intro im him
      rcases List.mem_cons.mp him with rfl | him'
      · exact le_trans hq2 (le_of_not_le h3)
      · exact hq3 im him'

/-- C4 (amended): when at least one age-specific modifier qualifies
(maxAge at least the guest age), selectBestGuestModifier returns an
age-qualifying modifier carrying its computed change, whose maxAge and
change are at most those of the first qualifying candidate in input order;
the smallest qualifying maxAge is not always selected (a later candidate
wins only when both its maxAge and its change are no larger), and when all
age-specific candidates share one maxAge the returned change is no larger
than any computed change (more negative wins). -/
theorem c4_age_selection (bp : ℚ) (modifiers : List Modifier) (age : Int) :
    (∀ (l0 : List (Nat × Modifier)) (i : Nat) (m1 : Modifier)
        (l1 : List (Nat × Modifier)),
      (List.enumFrom 0 modifiers).filter (fun im => isAgeMod im.2)
        = l0 ++ (i, m1) :: l1 →
      (∀ im ∈ l0, ¬ age ≤ (condMaxAge im.2).getD 0) →
      age ≤ (condMaxAge m1).getD 0 →
      ∃ sm, selectBestGuestModifier bp modifiers age = some sm ∧
        isAgeMod sm = true ∧
        age ≤ (condMaxAge sm).getD 0 ∧
        (condMaxAge sm).getD 0 ≤ (condMaxAge m1).getD 0 ∧
        sm.change.getD 0 ≤ computeChange bp m1 ∧
        sm.change = some (computeChange bp sm)) ∧
    (∀ (A : Int) (j : Nat) (m0 : Modifier) (ltail : List (Nat × Modifier)),
      age ≤ A →
      (List.enumFrom 0 modifiers).filter (fun im => isAgeMod im.2)
        = (j, m0) :: ltail →
      (∀ im ∈ (j, m0) :: ltail, (condMaxAge im.2).getD 0 = A) →
      ∃ sm, selectBestGuestModifier bp modifiers age = some sm ∧
        ∀ im ∈ (j, m0) :: ltail, sm.change.getD 0 ≤ computeChange bp im.2) := by
  constructor
  · intro l0 i m1 l1 hfilter hl0 hm1
    have hall : ∀ im ∈ l0 ++ (i, m1) :: l1, isAgeMod im.2 := by
      intro im him
      rw [← hfilter] at him
      exact (List.mem_filter.mp him).2
    obtain ⟨qb, hq1, hq2, hq3, hq4, hq5, hq6⟩ :=
      sbgmGo_first_qualifying bp age l0 i m1 l1 [] hl0 hm1
    rw [← hfilter] at hq1
    refine ⟨qb.2, ?_, ?_, hq4, hq2, hq3, hq5⟩
    · simp only [selectBestGuestModifier, selectBestGuestModifierFull, hq1]
    · exact hq6 ⟨hall (i, m1) (by simp), fun im him =>
        hall im (List.mem_append_right _ (List.mem_cons_of_mem _ him))⟩
  · intro A j m0 ltail hA hfilter hl
    have hm0 : (condMaxAge m0).getD 0 = A := hl (j, m0) (List.mem_cons_self _ _)
    have h1 : age ≤ (condMaxAge m0).getD 0 := by rw [hm0]; exact hA
    have hstep : sbgmGo bp age ((j, m0) :: ltail) none [] =
        sbgmGo bp age ltail
          (some (j, { m0 with change := some (computeChange bp m0) }))
          [(j, computeChange bp m0)] := by
      simp [sbgmGo, h1]
    obtain ⟨qb, hq1, hq2, hq3⟩ :=
      sbgmGo_equal_maxAge bp age A hA ltail
        (j, { m0 with change := some (computeChange bp m0) })
        [(j, computeChange bp m0)] hm0
        (fun im him => hl im (List.mem_cons_of_mem _ him))
    have hq1' : (sbgmGo bp age ((j, m0) :: ltail) none []).1 = some qb := by
      rw [hstep]; exact hq1
    rw [← hfilter] at hq1'
    refine ⟨qb.2, ?_, ?_⟩
    · simp only [selectBestGuestModifier, selectBestGuestModifierFull, hq1']
    · intro im him
      rcases List.mem_cons.mp him with rfl | him'
      · exact hq2
      · exact hq3 im him'

end WT

namespace WT

/-- The modifier of the C4 witness scenario. -/
def exModC4 : Modifier :=
  { mtype := some MType.absolute, adjustment := -17,
    conditions := some { maxAge := some 18 } }

/-- C4 witness: with a single qualifying age modifier (absolute -17 at
maxAge 18, guest age 16) the selection returns it with its computed change. -/
theorem c4_age_selection_witness :
    ((List.enumFrom 0 [exModC4]).filter (fun im => isAgeMod im.2)
      = [] ++ (0, exModC4) :: []) ∧
    ((16 : Int) ≤ (condMaxAge exModC4).getD 0) ∧
    ∃ sm, selectBestGuestModifier 50 [exModC4] 16 = some sm ∧
      isAgeMod sm = true ∧
      (16 : Int) ≤ (condMaxAge sm).getD 0 ∧
      (condMaxAge sm).getD 0 ≤ (condMaxAge exModC4).getD 0 ∧
      sm.change.getD 0 ≤ computeChange 50 exModC4 ∧
      sm.change = some (computeChange 50 sm) :=
  ⟨by decide, by decide,
    (c4_age_selection 50 [exModC4] 16).1 [] 0 exModC4 [] (by decide)
      (by simp) (by decide)⟩

end WT

namespace WT

/-- C5 counterexample: two satisfied modifiers with the same minLengthOfStay
threshold; the claim keeps the first, the code keeps the last. -/
theorem c5_counterexample :
    selectApplicableModifiers
      [{ mtype := some MType.absolute, adjustment := -10,
         conditions := some { minLengthOfStay := some 2 } },
       { mtype := some MType.absolute, adjustment := -20,
         conditions := some { minLengthOfStay := some 2 } }] 0 3 1
      = [{ mtype := some MType.absolute, adjustment := -20,
           conditions := some { minLengthOfStay := some 2 } }] ∧
    ({ mtype := some MType.absolute, adjustment := -20,
       conditions := some { minLengthOfStay := some 2 } } : Modifier)
      ≠ { mtype := some MType.absolute, adjustment := -10,
          conditions := some { minLengthOfStay := some 2 } } := by
  decide

/-- The overall guard of the filter callback: a valid type, a conditions
object, and a date window containing the date. -/
def samBasePass (dateDayjs : Int) (m : Modifier) : Bool :=
  m.mtype.isSome &&
    (match m.conditions with
     | some c => ! dateCondFails c dateDayjs
     | none => false)

/-- The truthy minLengthOfStay of a modifier, if any. -/
def losTruthy (m : Modifier) : Option Nat :=
  match m.conditions with
  | some c => natTruthy c.minLengthOfStay
  | none => none

/-- The truthy minOccupants of a modifier, if any. -/
def occTruthy (m : Modifier) : Option Nat :=
  match m.conditions with
  | some c => natTruthy c.minOccupants
  | none => none

/-- A modifier that reaches the minLengthOfStay branch with a satisfied
threshold. -/
def satLOSb (dateDayjs : Int) (lengthOfStay : Nat) (m : Modifier) : Bool :=
  samBasePass dateDayjs m &&
    (match losTruthy m with
     | some v => decide (v ≤ lengthOfStay)
     | none => false)

/-- A modifier that reaches the minOccupants branch with a satisfied
threshold (no truthy minLengthOfStay present). -/
def satOccb (dateDayjs : Int) (numberOfGuests : Nat) (m : Modifier) : Bool :=
  samBasePass dateDayjs m && (losTruthy m).isNone &&
    (match occTruthy m with
     | some v => decide (v ≤ numberOfGuests)
     | none => false)

theorem natTruthy_eq_some {o : Option Nat} {v : Nat}
    (h : natTruthy o = some v) : o = some v := by
  cases o with
  | none => cases h
  | some n =>
    cases n with
    | zero => cases h
    | succ n => exact h

theorem losValOf_of_truthy {m : Modifier} {v : Nat}
    (h : losTruthy m = some v) : losValOf m = v := by
  unfold losTruthy at h
  unfold losValOf
  cases hc : m.conditions with
  | none => rw [hc] at h; cases h
  | some c =>
    rw [hc] at h
    have h' : natTruthy c.minLengthOfStay = some v := h
    show c.minLengthOfStay.getD 0 = v
    rw [natTruthy_eq_some h']
    rfl

theorem occValOf_of_truthy {m : Modifier} {v : Nat}
    (h : occTruthy m = some v) : occValOf m = v := by
  unfold occTruthy at h
  unfold occValOf
  cases hc : m.conditions with
  | none => rw [hc] at h; cases h
  | some c =>
    rw [hc] at h
    have h' : natTruthy c.minOccupants = some v := h
    show c.minOccupants.getD 0 = v
    rw [natTruthy_eq_some h']
    rfl

/-- The independent maximum-tracking fold mirrored by the filter state:
a later element supersedes the tracked one unless its value is strictly
smaller. -/
def maxFoldBy (val : Modifier → Nat) :
    List (Nat × Modifier) → Option (Nat × Modifier) → Option (Nat × Modifier)
  | [], b => b
  | im :: rest, b =>
    match b with
    | none => maxFoldBy val rest (some im)
    | some pb =>
      if val im.2 < val pb.2 then maxFoldBy val rest (some pb)
      else maxFoldBy val rest (some im)

theorem maxFoldBy_some_spec (val : Modifier → Nat) :
    ∀ (l : List (Nat × Modifier)) (pb : Nat × Modifier),
      ∃ w, maxFoldBy val l (some pb) = some w ∧
        ((w = pb ∧ ∀ y ∈ l, val y.2 < val pb.2) ∨
          (∃ la lb, l = la ++ w :: lb ∧ (∀ y ∈ la, val y.2 ≤ val w.2) ∧
            (∀ y ∈ lb, val y.2 < val w.2) ∧ val pb.2 ≤ val w.2)) := by
  intro l
  induction l with
  | nil =>
    intro pb
    exact ⟨pb, rfl, Or.inl ⟨rfl, by simp⟩⟩
  | cons y rest ih =>
    intro pb
    by_cases hy : val y.2 < val pb.2
    · obtain ⟨w, hw1, hw2⟩ := ih pb
      refine ⟨w, by simpa [maxFoldBy, hy] using hw1, ?_⟩
      rcases hw2 with ⟨rfl, hall⟩ | ⟨la, lb, hsplit, hla, hlb, hpb⟩
      · exact Or.inl ⟨rfl, fun z hz => by
          rcases List.mem_cons.mp hz with rfl | hz'
          · exact hy
          · exact hall z hz'⟩
      · refine Or.inr ⟨y :: la, lb, by rw [hsplit, List.cons_append], ?_, hlb, hpb⟩
        intro z hz
        rcases List.mem_cons.mp hz with rfl | hz'
        · exact le_trans (le_of_lt hy) hpb
        · exact hla z hz'
    · obtain ⟨w, hw1, hw2⟩ := ih y
      refine ⟨w, by simpa [maxFoldBy, hy] using hw1, ?_⟩
      have hpy : val pb.2 ≤ val y.2 := le_of_not_lt hy
      rcases hw2 with ⟨rfl, hall⟩ | ⟨la, lb, hsplit, hla, hlb, hyw⟩
      · exact Or.inr ⟨[], rest, rfl, by simp, hall, hpy⟩
      · exact Or.inr ⟨y :: la, lb, by rw [hsplit, List.cons_append], fun z hz => by
          rcases List.mem_cons.mp hz with rfl | hz'
          · exact hyw
          · exact hla z hz', hlb, le_trans hpy hyw⟩

theorem maxFoldBy_none_split (val : Modifier → Nat) (l : List (Nat × Modifier))
    (hne : l ≠ []) :
    ∃ w la lb, maxFoldBy val l none = some w ∧ l = la ++ w :: lb ∧
      (∀ y ∈ la, val y.2 ≤ val w.2) ∧ (∀ y ∈ lb, val y.2 < val w.2) := by
  match l, hne with
  | y :: rest, _ =>
    obtain ⟨w, hw1, hw2⟩ := maxFoldBy_some_spec val rest y
    have hstep : maxFoldBy val (y :: rest) none = maxFoldBy val rest (some y) := by
      simp [maxFoldBy]
    rcases hw2 with ⟨rfl, hall⟩ | ⟨la, lb, hsplit, hla, hlb, hyw⟩
    · exact ⟨w, [], rest, by rw [hstep]; exact hw1, rfl, by simp, hall⟩
    · exact ⟨w, y :: la, lb, by rw [hstep]; exact hw1, by rw [hsplit, List.cons_append],
        fun z hz => by
          rcases List.mem_cons.mp hz with rfl | hz'
          · exact hyw
          · exact hla z hz', hlb⟩

end WT

namespace WT

/-- The elements surviving both passes of selectApplicableModifiers. -/
def survivors (st : SAMState) : List (Nat × Modifier) :=
  st.kept.filter (fun im => ! st.elementsToDrop.contains im.1)

/-- Survivors carrying a truthy minLengthOfStay. -/
def losCarry (im : Nat × Modifier) : Bool :=
  (losTruthy im.2).isSome

/-- Survivors carrying a truthy minOccupants and no truthy minLengthOfStay. -/
def occCarry (im : Nat × Modifier) : Bool :=
  (losTruthy im.2).isNone && (occTruthy im.2).isSome

theorem nat_contains_iff (l : List Nat) (a : Nat) :
    l.contains a = true ↔ a ∈ l := by
  simp

theorem nat_contains_false (l : List Nat) (a : Nat) (h : a ∉ l) :
    l.contains a = false := by
  cases hc : l.contains a
  · rfl
  · exact absurd ((nat_contains_iff l a).mp hc) h

theorem satLOSb_losTruthy {date : Int} {LOS : Nat} {m : Modifier}
    (h : satLOSb date LOS m = true) :
    ∃ v, losTruthy m = some v ∧ v ≤ LOS := by
  unfold satLOSb at h
  rcases Bool.and_eq_true_iff.mp h with ⟨_, h2⟩
  cases hv : losTruthy m with
  | none => rw [hv] at h2; cases h2
  | some v =>
    rw [hv] at h2
    exact ⟨v, rfl, of_decide_eq_true h2⟩

theorem satOccb_parts {date : Int} {ng : Nat} {m : Modifier}
    (h : satOccb date ng m = true) :
    losTruthy m = none ∧ ∃ v, occTruthy m = some v ∧ v ≤ ng := by
  unfold satOccb at h
  rcases Bool.and_eq_true_iff.mp h with ⟨h1, h2⟩
  rcases Bool.and_eq_true_iff.mp h1 with ⟨_, h12⟩
  refine ⟨Option.isNone_iff_eq_none.mp h12, ?_⟩
  cases hv : occTruthy m with
  | none => rw [hv] at h2; cases h2
  | some v =>
    rw [hv] at h2
    exact ⟨v, rfl, of_decide_eq_true h2⟩

theorem sat_exclusive {date : Int} {LOS ng : Nat} {m : Modifier}
    (h1 : satLOSb date LOS m = true) (h2 : satOccb date ng m = true) : False := by
  obtain ⟨v, hv, _⟩ := satLOSb_losTruthy h1
  obtain ⟨hnone, _⟩ := satOccb_parts h2
  rw [hnone] at hv
  cases hv

theorem kept_fn {l : List (Nat × Modifier)} (hnd : (l.map Prod.fst).Nodup) :
    ∀ {i : Nat} {x y : Modifier}, (i, x) ∈ l → (i, y) ∈ l → x = y := by
  induction l with
  | nil =>
    intro i x y hx _
    cases hx
  | cons hd tl ih =>
    intro i x y hx hy
    obtain ⟨j, z⟩ := hd
    rw [List.map_cons] at hnd
    have hnd' := List.nodup_cons.mp hnd
    rcases List.mem_cons.mp hx with hx1 | hx2 <;>
      rcases List.mem_cons.mp hy with hy1 | hy2
    · injection hx1 with e1 e2
      injection hy1 with e3 e4
      rw [e2, e4]
    · injection hx1 with e1 e2
      subst e1
      exact absurd (by simpa using List.mem_map_of_mem Prod.fst hy2) hnd'.1
    · injection hy1 with e3 e4
      subst e3
      exact absurd (by simpa using List.mem_map_of_mem Prod.fst hx2) hnd'.1
    · exact ih hnd'.2 hx2 hy2

theorem filter_dropped (kept : List (Nat × Modifier)) (drop : List Nat)
    (pi : Nat) :
    kept.filter (fun im => ! (drop ++ [pi]).contains im.1)
      = (kept.filter (fun im => ! drop.contains im.1)).filter
          (fun im => ! (im.1 == pi)) := by
  rw [List.filter_filter]
  apply List.filter_congr
  intro im _
  by_cases h1 : im.1 ∈ drop <;> by_cases h2 : im.1 = pi <;> simp [h1, h2]

theorem filter_swap (l : List (Nat × Modifier))
    (p q : Nat × Modifier → Bool) :
    (l.filter p).filter q = (l.filter q).filter p := by
  rw [List.filter_filter, List.filter_filter]
  apply List.filter_congr
  intro im _
  exact Bool.and_comm _ _

/-- Invariant carried through the filter pass of selectApplicableModifiers:
indices are bounded and unique, the tracked maxima are live kept elements of
the matching classification, and the surviving elements carrying each
condition kind are exactly the tracked maximum of that kind. -/
structure SamInv (dateDayjs : Int) (lengthOfStay numberOfGuests : Nat)
    (st : SAMState) (n : Nat) : Prop where
  kept_lt : ∀ im ∈ st.kept, im.1 < n
  drop_lt : ∀ j ∈ st.elementsToDrop, j < n
  kept_nodup : (st.kept.map Prod.fst).Nodup
  los_mem : ∀ pim, st.maxMinLOS = some pim →
    pim ∈ st.kept ∧ pim.1 ∉ st.elementsToDrop ∧
      satLOSb dateDayjs lengthOfStay pim.2 = true
  occ_mem : ∀ pim, st.maxMinOccupants = some pim →
    pim ∈ st.kept ∧ pim.1 ∉ st.elementsToDrop ∧
      satOccb dateDayjs numberOfGuests pim.2 = true
  los_out : (survivors st).filter losCarry = st.maxMinLOS.toList
  occ_out : (survivors st).filter occCarry = st.maxMinOccupants.toList

theorem SamInv.mono {date : Int} {LOS ng : Nat} {st : SAMState} {n n' : Nat}
    (h : SamInv date LOS ng st n) (hle : n ≤ n') : SamInv date LOS ng st n' :=
  ⟨fun im him => lt_of_lt_of_le (h.kept_lt im him) hle,
   fun j hj => lt_of_lt_of_le (h.drop_lt j hj) hle,
   h.kept_nodup, h.los_mem, h.occ_mem, h.los_out, h.occ_out⟩

theorem samInv_init (date : Int) (LOS ng : Nat) :
    SamInv date LOS ng {} 0 := by
  refine ⟨?_, ?_, ?_, ?_, ?_, ?_, ?_⟩ <;> simp [survivors]

end WT

namespace WT

theorem SamInv.append_pass {date : Int} {LOS ng : Nat} {st : SAMState}
    {k : Nat} (inv : SamInv date LOS ng st k) (m : Modifier)
    (hlos : losTruthy m = none) (hocc : occTruthy m = none) :
    SamInv date LOS ng { st with kept := st.kept ++ [(k, m)] } (k + 1) := by
  have hkd : st.elementsToDrop.contains k = false :=
    nat_contains_false _ _ (fun hin => lt_irrefl k (inv.drop_lt k hin))
  have hsurv : survivors { st with kept := st.kept ++ [(k, m)] }
      = survivors st ++ [(k, m)] := by
    unfold survivors
    rw [List.filter_append]
    congr 1
    simp
    exact fun hin => lt_irrefl k (inv.drop_lt k hin)
  refine ⟨?_, ?_, ?_, ?_, ?_, ?_, ?_⟩
  · intro im him
    rcases List.mem_append.mp him with h | h
    · exact lt_trans (inv.kept_lt im h) (Nat.lt_succ_self k)
    · simp at h
      subst h
      exact Nat.lt_succ_self k
  · exact fun j hj => lt_trans (inv.drop_lt j hj) (Nat.lt_succ_self k)
  · rw [List.map_append]
    refine List.Nodup.append inv.kept_nodup (by simp) ?_
    intro a ha hb
    simp at hb
    rcases List.mem_map.mp ha with ⟨im, him, rfl⟩
    exact absurd hb (by have := inv.kept_lt im him; omega)
  · intro pim h
    obtain ⟨h1, h2, h3⟩ := inv.los_mem pim h
    exact ⟨List.mem_append_left _ h1, h2, h3⟩
  · intro pim h
    obtain ⟨h1, h2, h3⟩ := inv.occ_mem pim h
    exact ⟨List.mem_append_left _ h1, h2, h3⟩
  · rw [hsurv, List.filter_append]
    have : ([(k, m)] : List (Nat × Modifier)).filter losCarry = [] := by
      simp [losCarry, hlos]
    rw [this, List.append_nil]
    exact inv.los_out
  · rw [hsurv, List.filter_append]
    have : ([(k, m)] : List (Nat × Modifier)).filter occCarry = [] := by
      simp [occCarry, hocc]
    rw [this, List.append_nil]
    exact inv.occ_out

theorem SamInv.append_newLos {date : Int} {LOS ng : Nat} {st : SAMState}
    {k : Nat} (inv : SamInv date LOS ng st k) (m : Modifier)
    (hmax : st.maxMinLOS = none) (hsat : satLOSb date LOS m = true) :
    SamInv date LOS ng
      { st with maxMinLOS := some (k, m), kept := st.kept ++ [(k, m)] }
      (k + 1) := by
  obtain ⟨v, hv, _⟩ := satLOSb_losTruthy hsat
  have hkd : st.elementsToDrop.contains k = false :=
    nat_contains_false _ _ (fun hin => lt_irrefl k (inv.drop_lt k hin))
  have hsurv : survivors
      { st with maxMinLOS := some (k, m), kept := st.kept ++ [(k, m)] }
      = survivors st ++ [(k, m)] := by
    unfold survivors
    rw [List.filter_append]
    congr 1
    simp
    exact fun hin => lt_irrefl k (inv.drop_lt k hin)
  refine ⟨?_, ?_, ?_, ?_, ?_, ?_, ?_⟩
  · intro im him
    rcases List.mem_append.mp him with h | h
    · exact lt_trans (inv.kept_lt im h) (Nat.lt_succ_self k)
    · simp at h
      subst h
      exact Nat.lt_succ_self k
  · exact fun j hj => lt_trans (inv.drop_lt j hj) (Nat.lt_succ_self k)
  · rw [List.map_append]
    refine List.Nodup.append inv.kept_nodup (by simp) ?_
    intro a ha hb
    simp at hb
    rcases List.mem_map.mp ha with ⟨im, him, rfl⟩
    exact absurd hb (by have := inv.kept_lt im him; omega)
  · intro pim h
    injection h with h
    subst h
    exact ⟨List.mem_append_right _ (by simp),
      fun hin => lt_irrefl k (inv.drop_lt k hin), hsat⟩
  · intro pim h
    obtain ⟨h1, h2, h3⟩ := inv.occ_mem pim h
    exact ⟨List.mem_append_left _ h1, h2, h3⟩
  · rw [hsurv, List.filter_append]
    have h2 : ([(k, m)] : List (Nat × Modifier)).filter losCarry = [(k, m)] := by
      simp [losCarry, hv]
    rw [h2, inv.los_out, hmax]
    rfl
  · rw [hsurv, List.filter_append]
    have h2 : ([(k, m)] : List (Nat × Modifier)).filter occCarry = [] := by
      simp [occCarry, hv]
    rw [h2, List.append_nil]
    exact inv.occ_out

theorem SamInv.replace_los {date : Int} {LOS ng : Nat} {st : SAMState}
    {k : Nat} {pim : Nat × Modifier} (inv : SamInv date LOS ng st k)
    (m : Modifier) (hmax : st.maxMinLOS = some pim)
    (hsat : satLOSb date LOS m = true) :
    SamInv date LOS ng
      { st with elementsToDrop := st.elementsToDrop ++ [pim.1],
                maxMinLOS := some (k, m), kept := st.kept ++ [(k, m)] }
      (k + 1) := by
  obtain ⟨v, hv, _⟩ := satLOSb_losTruthy hsat
  obtain ⟨hpk, hpd, hps⟩ := inv.los_mem pim hmax
  have hpi_lt : pim.1 < k := inv.kept_lt pim hpk
  have hkd : (st.elementsToDrop ++ [pim.1]).contains k = false := by
    refine nat_contains_false _ _ ?_
    intro hin
    rcases List.mem_append.mp hin with h | h
    · exact lt_irrefl k (inv.drop_lt k h)
    · simp at h
      omega
  have hsurv : survivors
      { st with elementsToDrop := st.elementsToDrop ++ [pim.1],
                maxMinLOS := some (k, m), kept := st.kept ++ [(k, m)] }
      = (survivors st).filter (fun im => ! (im.1 == pim.1)) ++ [(k, m)] := by
    unfold survivors
    rw [List.filter_append, filter_dropped]
    congr 1
    simp
    exact ⟨fun hin => lt_irrefl k (inv.drop_lt k hin), by omega⟩
  have hoccne : ∀ qim, st.maxMinOccupants = some qim → ¬ qim.1 = pim.1 := by
    intro qim hq heq
    obtain ⟨hq1, _, hq3⟩ := inv.occ_mem qim hq
    have h1 : (qim.1, qim.2) ∈ st.kept := hq1
    have h2 : (qim.1, pim.2) ∈ st.kept := by rw [heq]; exact hpk
    have heq2 : qim.2 = pim.2 := kept_fn inv.kept_nodup h1 h2
    exact sat_exclusive (heq2 ▸ hps) hq3
  refine ⟨?_, ?_, ?_, ?_, ?_, ?_, ?_⟩
  · intro im him
    rcases List.mem_append.mp him with h | h
    · exact lt_trans (inv.kept_lt im h) (Nat.lt_succ_self k)
    · simp at h
      subst h
      exact Nat.lt_succ_self k
  · intro j hj
    rcases List.mem_append.mp hj with h | h
    · exact lt_trans (inv.drop_lt j h) (Nat.lt_succ_self k)
    · simp at h
      omega
  · rw [List.map_append]
    refine List.Nodup.append inv.kept_nodup (by simp) ?_
    intro a ha hb
    simp at hb
    rcases List.mem_map.mp ha with ⟨im, him, rfl⟩
    exact absurd hb (by have := inv.kept_lt im him; omega)
  · intro pim' h
    injection h with h
    subst h
    refine ⟨List.mem_append_right _ (by simp), ?_, hsat⟩
    intro hin
    rcases List.mem_append.mp hin with h | h
    · exact lt_irrefl k (inv.drop_lt k h)
    · simp at h
      omega
  · intro qim hq
    obtain ⟨hq1, hq2, hq3⟩ := inv.occ_mem qim hq
    refine ⟨List.mem_append_left _ hq1, ?_, hq3⟩
    intro hin
    rcases List.mem_append.mp hin with h | h
    · exact hq2 h
    · simp at h
      exact hoccne qim hq h
  · rw [hsurv, List.filter_append, filter_swap, inv.los_out, hmax]
    have h2 : ([(k, m)] : List (Nat × Modifier)).filter losCarry = [(k, m)] := by
      simp [losCarry, hv]
    rw [h2]
    have h3 : (Option.toList (some pim)).filter (fun im => ! (im.1 == pim.1))
        = [] := by
      simp [Option.toList]
    rw [h3]
    rfl
  · rw [hsurv, List.filter_append, filter_swap, inv.occ_out]
    have h2 : ([(k, m)] : List (Nat × Modifier)).filter occCarry = [] := by
      simp [occCarry, hv]
    rw [h2, List.append_nil]
    cases hoc : st.maxMinOccupants with
    | none => simp [Option.toList]
    | some qim =>
      simp only [Option.toList]
      simp [hoccne qim hoc]

end WT

namespace WT

theorem SamInv.append_newOcc {date : Int} {LOS ng : Nat} {st : SAMState}
    {k : Nat} (inv : SamInv date LOS ng st k) (m : Modifier)
    (hmax : st.maxMinOccupants = none) (hsat : satOccb date ng m = true) :
    SamInv date LOS ng
      { st with maxMinOccupants := some (k, m), kept := st.kept ++ [(k, m)] }
      (k + 1) := by
  have hparts := satOccb_parts hsat
  have hlosn := hparts.1
  obtain ⟨w, hw, _⟩ := hparts.2
  have hsurv : survivors
      { st with maxMinOccupants := some (k, m), kept := st.kept ++ [(k, m)] }
      = survivors st ++ [(k, m)] := by
    unfold survivors
    rw [List.filter_append]
    congr 1
    simp
    exact fun hin => lt_irrefl k (inv.drop_lt k hin)
  refine ⟨?_, ?_, ?_, ?_, ?_, ?_, ?_⟩
  · intro im him
    rcases List.mem_append.mp him with h | h
    · exact lt_trans (inv.kept_lt im h) (Nat.lt_succ_self k)
    · simp at h
      subst h
      exact Nat.lt_succ_self k
  · exact fun j hj => lt_trans (inv.drop_lt j hj) (Nat.lt_succ_self k)
  · rw [List.map_append]
    refine List.Nodup.append inv.kept_nodup (by simp) ?_
    intro a ha hb
    simp at hb
    rcases List.mem_map.mp ha with ⟨im, him, rfl⟩
    exact absurd hb (by have := inv.kept_lt im him; omega)
  · intro pim h
    obtain ⟨h1, h2, h3⟩ := inv.los_mem pim h
    exact ⟨List.mem_append_left _ h1, h2, h3⟩
  · intro pim h
    injection h with h
    subst h
    exact ⟨List.mem_append_right _ (by simp),
      fun hin => lt_irrefl k (inv.drop_lt k hin), hsat⟩
  · rw [hsurv, List.filter_append]
    have h2 : ([(k, m)] : List (Nat × Modifier)).filter losCarry = [] := by
      simp [losCarry, hlosn]
    rw [h2, List.append_nil]
    exact inv.los_out
  · rw [hsurv, List.filter_append]
    have h2 : ([(k, m)] : List (Nat × Modifier)).filter occCarry = [(k, m)] := by
      simp [occCarry, hlosn, hw]
    rw [h2, inv.occ_out, hmax]
    rfl

theorem SamInv.replace_occ {date : Int} {LOS ng : Nat} {st : SAMState}
    {k : Nat} {pim : Nat × Modifier} (inv : SamInv date LOS ng st k)
    (m : Modifier) (hmax : st.maxMinOccupants = some pim)
    (hsat : satOccb date ng m = true) :
    SamInv date LOS ng
      { st with elementsToDrop := st.elementsToDrop ++ [pim.1],
                maxMinOccupants := some (k, m), kept := st.kept ++ [(k, m)] }
      (k + 1) := by
  have hparts := satOccb_parts hsat
  have hlosn := hparts.1
  obtain ⟨w, hw, _⟩ := hparts.2
  obtain ⟨hpk, hpd, hps⟩ := inv.occ_mem pim hmax
  have hpi_lt : pim.1 < k := inv.kept_lt pim hpk
  have hsurv : survivors
      { st with elementsToDrop := st.elementsToDrop ++ [pim.1],
                maxMinOccupants := some (k, m), kept := st.kept ++ [(k, m)] }
      = (survivors st).filter (fun im => ! (im.1 == pim.1)) ++ [(k, m)] := by
    unfold survivors
    rw [List.filter_append, filter_dropped]
    congr 1
    simp
    exact ⟨fun hin => lt_irrefl k (inv.drop_lt k hin), by omega⟩
  have hlosne : ∀ qim, st.maxMinLOS = some qim → ¬ qim.1 = pim.1 := by
    intro qim hq heq
    obtain ⟨hq1, _, hq3⟩ := inv.los_mem qim hq
    have h1 : (qim.1, qim.2) ∈ st.kept := hq1
    have h2 : (qim.1, pim.2) ∈ st.kept := by rw [heq]; exact hpk
    have heq2 : qim.2 = pim.2 := kept_fn inv.kept_nodup h1 h2
    exact sat_exclusive hq3 (heq2 ▸ hps)
  refine ⟨?_, ?_, ?_, ?_, ?_, ?_, ?_⟩
  · intro im him
    rcases List.mem_append.mp him with h | h
    · exact lt_trans (inv.kept_lt im h) (Nat.lt_succ_self k)
    · simp at h
      subst h
      exact Nat.lt_succ_self k
  · intro j hj
    rcases List.mem_append.mp hj with h | h
    · exact lt_trans (inv.drop_lt j h) (Nat.lt_succ_self k)
    · simp at h
      omega
  · rw [List.map_append]
    refine List.Nodup.append inv.kept_nodup (by simp) ?_
    intro a ha hb
    simp at hb
    rcases List.mem_map.mp ha with ⟨im, him, rfl⟩
    exact absurd hb (by have := inv.kept_lt im him; omega)
  · intro qim hq
    obtain ⟨hq1, hq2, hq3⟩ := inv.los_mem qim hq
    refine ⟨List.mem_append_left _ hq1, ?_, hq3⟩
    intro hin
    rcases List.mem_append.mp hin with h | h
    · exact hq2 h
    · simp at h
      exact hlosne qim hq h
  · intro pim' h
    injection h with h
    subst h
    refine ⟨List.mem_append_right _ (by simp), ?_, hsat⟩
    intro hin
    rcases List.mem_append.mp hin with h | h
    · exact lt_irrefl k (inv.drop_lt k h)
    · simp at h
      omega
  · rw [hsurv, List.filter_append, filter_swap, inv.los_out]
    have h2 : ([(k, m)] : List (Nat × Modifier)).filter losCarry = [] := by
      simp [losCarry, hlosn]
    rw [h2, List.append_nil]
    cases hoc : st.maxMinLOS with
    | none => simp [Option.toList]
    | some qim =>
      simp only [Option.toList]
      simp [hlosne qim hoc]
  · rw [hsurv, List.filter_append, filter_swap, inv.occ_out, hmax]
    have h2 : ([(k, m)] : List (Nat × Modifier)).filter occCarry = [(k, m)] := by
      simp [occCarry, hlosn, hw]
    rw [h2]
    have h3 : (Option.toList (some pim)).filter (fun im => ! (im.1 == pim.1))
        = [] := by
      simp [Option.toList]
    rw [h3]
    rfl

end WT

namespace WT

theorem samGo_inv (date : Int) (LOS ng : Nat) :
    ∀ (rest : List Modifier) (k : Nat) (st : SAMState),
      SamInv date LOS ng st k →
      SamInv date LOS ng (samGo date LOS ng k st rest) (k + rest.length) ∧
      (samGo date LOS ng k st rest).maxMinLOS
        = maxFoldBy losValOf ((List.enumFrom k rest).filter
            (fun im => satLOSb date LOS im.2)) st.maxMinLOS ∧
      (samGo date LOS ng k st rest).maxMinOccupants
        = maxFoldBy occValOf ((List.enumFrom k rest).filter
            (fun im => satOccb date ng im.2)) st.maxMinOccupants := by
  intro rest
  induction rest with
  | nil =>
    intro k st inv
    exact ⟨by simpa using inv, rfl, rfl⟩
  | cons m rest ih =>
    intro k st inv
    have hgo : samGo date LOS ng k st (m :: rest)
        = samGo date LOS ng (k + 1) (samStep date LOS ng st k m) rest := rfl
    have henum : List.enumFrom k (m :: rest)
        = (k, m) :: List.enumFrom (k + 1) rest := rfl
    have hlen : k + (m :: rest).length = (k + 1) + rest.length := by
      simp [List.length_cons]
      omega
    -- a helper applying the inductive hypothesis to a stepped state
    have main : ∀ (st' : SAMState), samStep date LOS ng st k m = st' →
        SamInv date LOS ng st' (k + 1) →
        (satLOSb date LOS m = false →
          st'.maxMinLOS = st.maxMinLOS) →
        (satOccb date ng m = false →
          st'.maxMinOccupants = st.maxMinOccupants) →
        (∀ hs : satLOSb date LOS m = true,
          st'.maxMinLOS = maxFoldBy losValOf [(k, m)] st.maxMinLOS) →
        (∀ hs : satOccb date ng m = true,
          st'.maxMinOccupants = maxFoldBy occValOf [(k, m)] st.maxMinOccupants) →
        SamInv date LOS ng (samGo date LOS ng k st (m :: rest))
            (k + (m :: rest).length) ∧
        (samGo date LOS ng k st (m :: rest)).maxMinLOS
          = maxFoldBy losValOf ((List.enumFrom k (m :: rest)).filter
              (fun im => satLOSb date LOS im.2)) st.maxMinLOS ∧
        (samGo date LOS ng k st (m :: rest)).maxMinOccupants
          = maxFoldBy occValOf ((List.enumFrom k (m :: rest)).filter
              (fun im => satOccb date ng im.2)) st.maxMinOccupants := by
      intro st' hstep hinv hLf hOf hLt hOt
      obtain ⟨ih1, ih2, ih3⟩ := ih (k + 1) st' hinv
      rw [hgo, hstep]
      refine ⟨by rw [hlen]; exact ih1, ?_, ?_⟩
      · rw [henum, ih2]
        cases hs : satLOSb date LOS m with
        | false =>
          rw [List.filter_cons]
          simp only [hs, Bool.false_eq_true, if_false, hLf hs]
        | true =>
          rw [List.filter_cons]
          simp only [hs, if_true]
          rw [hLt hs]
          cases hb : st.maxMinLOS with
          | none => rfl
          | some pim =>
            simp only [maxFoldBy]
            split <;> rfl
      · rw [henum, ih3]
        cases hs : satOccb date ng m with
        | false =>
          rw [List.filter_cons]
          simp only [hs, Bool.false_eq_true, if_false, hOf hs]
        | true =>
          rw [List.filter_cons]
          simp only [hs, if_true]
          rw [hOt hs]
          cases hb : st.maxMinOccupants with
          | none => rfl
          | some pim =>
            simp only [maxFoldBy]
            split <;> rfl
    cases hty : m.mtype with
    | none =>
      have hbp : samBasePass date m = false := by
        simp [samBasePass, hty]
      refine main st (by simp [samStep, hty]) (inv.mono (Nat.le_succ k)) ?_ ?_ ?_ ?_
      · intro _; rfl
      · intro _; rfl
      · intro hs; rw [satLOSb, hbp] at hs; cases hs
      · intro hs; rw [satOccb, hbp] at hs; simp at hs
    | some ty =>
      cases hcond : m.conditions with
      | none =>
        have hbp : samBasePass date m = false := by
          simp [samBasePass, hcond]
        refine main st (by simp [samStep, hty, hcond])
          (inv.mono (Nat.le_succ k)) ?_ ?_ ?_ ?_
        · intro _; rfl
        · intro _; rfl
        · intro hs; rw [satLOSb, hbp] at hs; cases hs
        · intro hs; rw [satOccb, hbp] at hs; simp at hs
      | some c =>
        by_cases hdate : dateCondFails c date = true
        · have hbp : samBasePass date m = false := by
            simp [samBasePass, hcond, hdate]
          refine main st (by simp [samStep, hty, hcond, hdate])
            (inv.mono (Nat.le_succ k)) ?_ ?_ ?_ ?_
          · intro _; rfl
          · intro _; rfl
          · intro hs; rw [satLOSb, hbp] at hs; cases hs
          · intro hs; rw [satOccb, hbp] at hs; simp at hs
        · have hdate' : dateCondFails c date = false := by
            cases h : dateCondFails c date
            · rfl
            · exact absurd h hdate
          have hbp : samBasePass date m = true := by
            simp [samBasePass, hty, hcond, hdate']
          cases hlt : natTruthy c.minLengthOfStay with
          | some v =>
            have hlosT : losTruthy m = some v := by
              simp [losTruthy, hcond, hlt]
            have hsOcc : satOccb date ng m = false := by
              simp [satOccb, hlosT]
            by_cases hvgt : LOS < v
            · have hsLos : satLOSb date LOS m = false := by
                simp [satLOSb, hlosT, Nat.not_le.mpr hvgt]
              refine main st (by simp [samStep, hty, hcond, hdate', hlt, hvgt])
                (inv.mono (Nat.le_succ k)) ?_ ?_ ?_ ?_
              · intro _; rfl
              · intro _; rfl
              · intro hs; rw [hs] at hsLos; cases hsLos
              · intro hs; rw [hs] at hsOcc; cases hsOcc
            · have hsLos : satLOSb date LOS m = true := by
                simp [satLOSb, hbp, hlosT, Nat.not_lt.mp hvgt]
              have hval : losValOf m = v := losValOf_of_truthy hlosT
              rcases Option.eq_none_or_eq_some st.maxMinLOS with hmax | ⟨pim, hmax⟩
              · refine main _ (by simp [samStep, hty, hcond, hdate', hlt, hvgt, hmax])
                  (inv.append_newLos m hmax hsLos) ?_ ?_ ?_ ?_
                · intro hs; rw [hs] at hsLos; cases hsLos
                · intro _; rfl
                · intro _
                  simp [maxFoldBy, hmax]
                · intro hs; rw [hs] at hsOcc; cases hsOcc
              · by_cases hcmp : v < losValOf pim.2
                · refine main st
                    (by simp [samStep, hty, hcond, hdate', hlt, hvgt, hmax, hcmp])
                    (inv.mono (Nat.le_succ k)) ?_ ?_ ?_ ?_
                  · intro _; rfl
                  · intro _; rfl
                  · intro _
                    simp [maxFoldBy, hmax, hval, hcmp]
                  · intro hs; rw [hs] at hsOcc; cases hsOcc
                · refine main _
                    (by simp [samStep, hty, hcond, hdate', hlt, hvgt, hmax, hcmp])
                    (inv.replace_los m hmax hsLos) ?_ ?_ ?_ ?_
                  · intro hs; rw [hs] at hsLos; cases hsLos
                  · intro _; rfl
                  · intro _
                    simp [maxFoldBy, hmax, hval, hcmp]
                  · intro hs; rw [hs] at hsOcc; cases hsOcc
          | none =>
            have hlosT : losTruthy m = none := by
              simp [losTruthy, hcond, hlt]
            have hsLos : satLOSb date LOS m = false := by
              simp [satLOSb, hlosT]
            cases hocc : natTruthy c.minOccupants with
            | some w =>
              have hoccT : occTruthy m = some w := by
                simp [occTruthy, hcond, hocc]
              by_cases hwgt : ng < w
              · have hsOcc : satOccb date ng m = false := by
                  simp [satOccb, hoccT, Nat.not_le.mpr hwgt]
                refine main st
                  (by simp [samStep, hty, hcond, hdate', hlt, hocc, hwgt])
                  (inv.mono (Nat.le_succ k)) ?_ ?_ ?_ ?_
                · intro _; rfl
                · intro _; rfl
                · intro hs; rw [hs] at hsLos; cases hsLos
                · intro hs; rw [hs] at hsOcc; cases hsOcc
              · have hsOcc : satOccb date ng m = true := by
                  simp [satOccb, hbp, hlosT, hoccT, Nat.not_lt.mp hwgt]
                have hval : occValOf m = w := occValOf_of_truthy hoccT
                rcases Option.eq_none_or_eq_some st.maxMinOccupants with hmax | ⟨pim, hmax⟩
                · refine main _
                    (by simp [samStep, hty, hcond, hdate', hlt, hocc, hwgt, hmax])
                    (inv.append_newOcc m hmax hsOcc) ?_ ?_ ?_ ?_
                  · intro _; rfl
                  · intro hs; rw [hs] at hsOcc; cases hsOcc
                  · intro hs; rw [hs] at hsLos; cases hsLos
                  · intro _
                    simp [maxFoldBy, hmax]
                · by_cases hcmp : w < occValOf pim.2
                  · refine main st
                      (by simp [samStep, hty, hcond, hdate', hlt, hocc, hwgt, hmax, hcmp])
                      (inv.mono (Nat.le_succ k)) ?_ ?_ ?_ ?_
                    · intro _; rfl
                    · intro _; rfl
                    · intro hs; rw [hs] at hsLos; cases hsLos
                    · intro _
                      simp [maxFoldBy, hmax, hval, hcmp]
                  · refine main _
                      (by simp [samStep, hty, hcond, hdate', hlt, hocc, hwgt, hmax, hcmp])
                      (inv.replace_occ m hmax hsOcc) ?_ ?_ ?_ ?_
                    · intro _; rfl
                    · intro hs; rw [hs] at hsOcc; cases hsOcc
                    · intro hs; rw [hs] at hsLos; cases hsLos
                    · intro _
                      simp [maxFoldBy, hmax, hval, hcmp]
            | none =>
              have hoccT : occTruthy m = none := by
                simp [occTruthy, hcond, hocc]
              have hsOcc : satOccb date ng m = false := by
                simp [satOccb, hoccT]
              refine main _
                (by simp [samStep, hty, hcond, hdate', hlt, hocc])
                (inv.append_pass m hlosT hoccT) ?_ ?_ ?_ ?_
              · intro _; rfl
              · intro _; rfl
              · intro hs; rw [hs] at hsLos; cases hsLos
              · intro hs; rw [hs] at hsOcc; cases hsOcc

end WT

namespace WT

theorem filter_map_snd (l : List (Nat × Modifier)) (p : Modifier → Bool) :
    (l.map Prod.snd).filter p = (l.filter (fun im => p im.2)).map Prod.snd := by
  induction l with
  | nil => rfl
  | cons a t ih =>
    by_cases h : p a.2 <;> simp [List.filter_cons, h, ih]

/-- C5 (amended): among the modifiers whose minLengthOfStay (respectively
minOccupants) condition is reached and satisfied, selectApplicableModifiers
keeps exactly one: a modifier whose threshold is the largest, and which every
later satisfied candidate undercuts strictly — so on equal largest thresholds
the LAST modifier in input order is kept, not the first.  Each condition kind
is characterized independently, under the sole hypothesis that a satisfied
candidate of that kind exists. -/
theorem c5_largest_threshold_last (mods : List Modifier) (date : Int)
    (LOS ng : Nat) :
    ((List.enumFrom 0 mods).filter
        (fun im => satLOSb date LOS im.2) ≠ [] →
      ∃ la w lb,
        (List.enumFrom 0 mods).filter (fun im => satLOSb date LOS im.2)
          = la ++ w :: lb ∧
        (∀ y ∈ la, losValOf y.2 ≤ losValOf w.2) ∧
        (∀ y ∈ lb, losValOf y.2 < losValOf w.2) ∧
        (selectApplicableModifiers mods date LOS ng).filter
            (fun m => (losTruthy m).isSome) = [w.2]) ∧
    ((List.enumFrom 0 mods).filter
        (fun im => satOccb date ng im.2) ≠ [] →
      ∃ la w lb,
        (List.enumFrom 0 mods).filter (fun im => satOccb date ng im.2)
          = la ++ w :: lb ∧
        (∀ y ∈ la, occValOf y.2 ≤ occValOf w.2) ∧
        (∀ y ∈ lb, occValOf y.2 < occValOf w.2) ∧
        (selectApplicableModifiers mods date LOS ng).filter
            (fun m => (losTruthy m).isNone && (occTruthy m).isSome) = [w.2]) := by
  obtain ⟨inv, hL, hO⟩ := samGo_inv date LOS ng mods 0 {} (samInv_init date LOS ng)
  have hselect : selectApplicableModifiers mods date LOS ng
      = (survivors (samGo date LOS ng 0 {} mods)).map Prod.snd := rfl
  constructor
  · intro hlos
    obtain ⟨wl, lal, lbl, hfoldl, hsplitl, hlal, hlbl⟩ :=
      maxFoldBy_none_split losValOf _ hlos
    have hmaxL : (samGo date LOS ng 0 {} mods).maxMinLOS = some wl := by
      rw [hL]; exact hfoldl
    refine ⟨lal, wl, lbl, hsplitl, hlal, hlbl, ?_⟩
    rw [hselect, filter_map_snd]
    have hout : (survivors (samGo date LOS ng 0 {} mods)).filter
        (fun im => (losTruthy im.2).isSome) = [wl] := by
      have h := inv.los_out
      rw [hmaxL] at h
      simpa [losCarry, Option.toList] using h
    rw [hout]
    rfl
  · intro hocc
    obtain ⟨wo, lao, lbo, hfoldo, hsplito, hlao, hlbo⟩ :=
      maxFoldBy_none_split occValOf _ hocc
    have hmaxO : (samGo date LOS ng 0 {} mods).maxMinOccupants = some wo := by
      rw [hO]; exact hfoldo
    refine ⟨lao, wo, lbo, hsplito, hlao, hlbo, ?_⟩
    rw [hselect, filter_map_snd]
    have hout : (survivors (samGo date LOS ng 0 {} mods)).filter
        (fun im => (losTruthy im.2).isNone && (occTruthy im.2).isSome) = [wo] := by
      have h := inv.occ_out
      rw [hmaxO] at h
      simpa [occCarry, Option.toList] using h
    rw [hout]
    rfl

/-- Concrete modifier list for the C5 witness: two satisfied equal-threshold
minLengthOfStay modifiers and one satisfied minOccupants modifier. -/
def exModsC5 : List Modifier :=
  [{ mtype := some MType.absolute, adjustment := -10,
     conditions := some { minLengthOfStay := some 2 } },
   { mtype := some MType.absolute, adjustment := -20,
     conditions := some { minLengthOfStay := some 2 } },
   { mtype := some MType.absolute, adjustment := -5,
     conditions := some { minOccupants := some 1 } }]

theorem c5_largest_threshold_last_witness :
    ((List.enumFrom 0 exModsC5).filter
        (fun im => satLOSb 0 3 im.2) ≠ []) ∧
    (∃ la w lb,
      (List.enumFrom 0 exModsC5).filter (fun im => satLOSb 0 3 im.2)
        = la ++ w :: lb ∧
      (∀ y ∈ la, losValOf y.2 ≤ losValOf w.2) ∧
      (∀ y ∈ lb, losValOf y.2 < losValOf w.2) ∧
      (selectApplicableModifiers exModsC5 0 3 1).filter
          (fun m => (losTruthy m).isSome) = [w.2]) ∧
    ((List.enumFrom 0 exModsC5).filter
        (fun im => satOccb 0 1 im.2) ≠ []) ∧
    (∃ la w lb,
      (List.enumFrom 0 exModsC5).filter (fun im => satOccb 0 1 im.2)
        = la ++ w :: lb ∧
      (∀ y ∈ la, occValOf y.2 ≤ occValOf w.2) ∧
      (∀ y ∈ lb, occValOf y.2 < occValOf w.2) ∧
      (selectApplicableModifiers exModsC5 0 3 1).filter
          (fun m => (losTruthy m).isNone && (occTruthy m).isSome) = [w.2]) :=
  ⟨by decide,
    (c5_largest_threshold_last exModsC5 0 3 1).1 (by decide),
    by decide,
    (c5_largest_threshold_last exModsC5 0 3 1).2 (by decide)⟩

end WT
